import Mathlib

/-!
Verification of the drum-score-capture backend against its specification.

Each definition below is a shallow embedding of a Python function from the
repository (`src/backend/app/...`).  Machine floats are modelled as `ℚ`,
numpy integer truncation as `Nat`/`Int` floor division, images as lists of
rows of rational pixels.  Calls into OpenCV / ffmpeg / the filesystem are
not expressible in a shallow embedding; where a modelled function needs the
result of such a call, the result enters as an explicit oracle parameter
and every theorem quantifies over the oracle.
-/

namespace DrumScore

/-! ## Corner ordering (`_order_points` in `pipeline/detect.py` and
`pipeline/rectify.py`)

A point is an `(x, y)` pair; both copies of the Python function compute
`s = x + y` and `d = np.diff(pts, axis=1) = y - x` for each of the four
points and return `[pts[argmin s], pts[argmin d], pts[argmax s], pts[argmax d]]`.
`np.argmin` / `np.argmax` return the first index attaining the extremum. -/

/-- An image-plane point `(x, y)`. -/
abbrev Pt := ℤ × ℤ

/-- A 4-point region, in input order. -/
abbrev Quad := Pt × Pt × Pt × Pt

/-- The four points of a quadrilateral as a list, in input order. -/
def quadList (q : Quad) : List Pt := [q.1, q.2.1, q.2.2.1, q.2.2.2]

/-- `x + y` of a point (the `s = pts.sum(axis=1)` values). -/
def sumXY (p : Pt) : ℤ := p.1 + p.2

/-- `y - x` of a point (the `diff = np.diff(pts, axis=1)` values). -/
def diffYX (p : Pt) : ℤ := p.2 - p.1

/-- One step of a first-occurrence minimum scan: keep `best` unless `p` is
strictly smaller under `f`. -/
def pickMin (f : Pt → ℤ) (best p : Pt) : Pt := if f p < f best then p else best

/-- One step of a first-occurrence maximum scan: keep `best` unless `p` is
strictly larger under `f`. -/
def pickMax (f : Pt → ℤ) (best p : Pt) : Pt := if f best < f p then p else best

/-- First point of the quadruple minimizing `f` (the `pts[np.argmin (f pts)]`
selection: `np.argmin` keeps the first index attaining the minimum). -/
def argminPt (f : Pt → ℤ) (q : Quad) : Pt :=
  pickMin f (pickMin f (pickMin f q.1 q.2.1) q.2.2.1) q.2.2.2

/-- First point of the quadruple maximizing `f` (the `pts[np.argmax (f pts)]`
selection: `np.argmax` keeps the first index attaining the maximum). -/
def argmaxPt (f : Pt → ℤ) (q : Quad) : Pt :=
  pickMax f (pickMax f (pickMax f q.1 q.2.1) q.2.2.1) q.2.2.2

/-- `_order_points(pts)`: returns
`(pts[argmin s], pts[argmin diff], pts[argmax s], pts[argmax diff])`
with `s = x + y` and `diff = y - x`. -/
def orderPoints (q : Quad) : Quad :=
  (argminPt sumXY q, argminPt diffYX q, argmaxPt sumXY q, argmaxPt diffYX q)

/-- `f` attains its minimum over the quadruple at a unique point. -/
abbrev uniqueMin (f : Pt → ℤ) (q : Quad) : Prop :=
  ∀ p ∈ quadList q, p ≠ argminPt f q → f (argminPt f q) < f p

/-- `f` attains its maximum over the quadruple at a unique point. -/
abbrev uniqueMax (f : Pt → ℤ) (q : Quad) : Prop :=
  ∀ p ∈ quadList q, p ≠ argmaxPt f q → f p < f (argmaxPt f q)

lemma argminPt_mem (f : Pt → ℤ) (q : Quad) : argminPt f q ∈ quadList q := by
  unfold argminPt pickMin quadList
  split_ifs <;> simp

lemma argminPt_le (f : Pt → ℤ) (q : Quad) :
    ∀ p ∈ quadList q, f (argminPt f q) ≤ f p := by
  intro p hp
  unfold quadList at hp
  unfold argminPt pickMin
  simp only [List.mem_cons, List.not_mem_nil, or_false] at hp
  rcases hp with h | h | h | h <;> subst h <;> split_ifs <;> omega

lemma argmaxPt_mem (f : Pt → ℤ) (q : Quad) : argmaxPt f q ∈ quadList q := by
  unfold argmaxPt pickMax quadList
  split_ifs <;> simp

lemma argmaxPt_ge (f : Pt → ℤ) (q : Quad) :
    ∀ p ∈ quadList q, f p ≤ f (argmaxPt f q) := by
  intro p hp
  unfold quadList at hp
  unfold argmaxPt pickMax
  simp only [List.mem_cons, List.not_mem_nil, or_false] at hp
  rcases hp with h | h | h | h <;> subst h <;> split_ifs <;> omega

lemma argminPt_unique (f : Pt → ℤ) (q : Quad) (hu : uniqueMin f q)
    (p : Pt) (hmem : p ∈ quadList q) (hle : ∀ r ∈ quadList q, f p ≤ f r) :
    p = argminPt f q := by
  by_contra hne
  exact absurd (hle _ (argminPt_mem f q)) (not_le.mpr (hu p hmem hne))

lemma argmaxPt_unique (f : Pt → ℤ) (q : Quad) (hu : uniqueMax f q)
    (p : Pt) (hmem : p ∈ quadList q) (hge : ∀ r ∈ quadList q, f r ≤ f p) :
    p = argmaxPt f q := by
  by_contra hne
  exact absurd (hge _ (argmaxPt_mem f q)) (not_le.mpr (hu p hmem hne))

lemma quadList_orderPoints_subset (q : Quad) :
    ∀ p ∈ quadList (orderPoints q), p ∈ quadList q := by
  intro p hp
  unfold quadList orderPoints at hp
  simp only [List.mem_cons, List.not_mem_nil, or_false] at hp
  rcases hp with h | h | h | h <;> subst h
  · exact argminPt_mem _ q
  · exact argminPt_mem _ q
  · exact argmaxPt_mem _ q
  · exact argmaxPt_mem _ q

lemma argminPt_orderPoints (f : Pt → ℤ) (q : Quad) (hu : uniqueMin f q)
    (hin : argminPt f q ∈ quadList (orderPoints q)) :
    argminPt f (orderPoints q) = argminPt f q := by
  apply argminPt_unique f q hu _
    (quadList_orderPoints_subset q _ (argminPt_mem f (orderPoints q)))
  intro r hr
  calc f (argminPt f (orderPoints q)) ≤ f (argminPt f q) :=
        argminPt_le f (orderPoints q) _ hin
    _ ≤ f r := argminPt_le f q r hr

lemma argmaxPt_orderPoints (f : Pt → ℤ) (q : Quad) (hu : uniqueMax f q)
    (hin : argmaxPt f q ∈ quadList (orderPoints q)) :
    argmaxPt f (orderPoints q) = argmaxPt f q := by
  apply argmaxPt_unique f q hu _
    (quadList_orderPoints_subset q _ (argmaxPt_mem f (orderPoints q)))
  intro r hr
  calc f r ≤ f (argmaxPt f q) := argmaxPt_ge f q r hr
    _ ≤ f (argmaxPt f (orderPoints q)) := argmaxPt_ge f (orderPoints q) _ hin

/-- The claim's formula "top-right = argmin(x−y)" fails on the code, which
takes `argmin(y−x)` there, and idempotence fails on inputs with tied
extrema: on the axis-aligned square the second output point `(10, 0)` does
not minimize `x − y` (the point `(0, 10)` is strictly smaller), and on a
quadruple with two points of maximal `x+y` a second application of
`_order_points` changes the output. -/
theorem order_points_claim_counterexample :
    (∃ p ∈ quadList ((0, 0), (10, 0), (10, 10), (0, 10)),
        p.1 - p.2 <
          (orderPoints ((0, 0), (10, 0), (10, 10), (0, 10))).2.1.1 -
            (orderPoints ((0, 0), (10, 0), (10, 10), (0, 10))).2.1.2) ∧
      orderPoints (orderPoints ((0, 0), (2, 4), (5, 1), (0, 5))) ≠
        orderPoints ((0, 0), (2, 4), (5, 1), (0, 5)) := by
  decide

/-- C1 (amended): on every 4-point input whose `x+y` and `y−x` extrema are
each attained at a unique point, `_order_points` is idempotent and returns,
in order, the point with minimal `x+y` (top-left), the point with maximal
`x−y` (top-right), the point with maximal `x+y` (bottom-right), and the
point with minimal `x−y` (bottom-left); each output point is one of the
input points. -/
theorem order_points_ordered (q : Quad)
    (huMinS : uniqueMin sumXY q) (huMaxS : uniqueMax sumXY q)
    (huMinD : uniqueMin diffYX q) (huMaxD : uniqueMax diffYX q) :
    orderPoints (orderPoints q) = orderPoints q ∧
      ((orderPoints q).1 ∈ quadList q ∧
        ∀ p ∈ quadList q, (orderPoints q).1.1 + (orderPoints q).1.2 ≤ p.1 + p.2) ∧
      ((orderPoints q).2.1 ∈ quadList q ∧
        ∀ p ∈ quadList q, p.1 - p.2 ≤ (orderPoints q).2.1.1 - (orderPoints q).2.1.2) ∧
      ((orderPoints q).2.2.1 ∈ quadList q ∧
        ∀ p ∈ quadList q, p.1 + p.2 ≤ (orderPoints q).2.2.1.1 + (orderPoints q).2.2.1.2) ∧
      ((orderPoints q).2.2.2 ∈ quadList q ∧
        ∀ p ∈ quadList q, (orderPoints q).2.2.2.1 - (orderPoints q).2.2.2.2 ≤ p.1 - p.2) := by
  have hmem : ∀ r : Pt, r ∈ quadList (orderPoints q) ↔
      (r = argminPt sumXY q ∨ r = argminPt diffYX q ∨
        r = argmaxPt sumXY q ∨ r = argmaxPt diffYX q) := by
    intro r
    unfold quadList orderPoints
    simp
  refine ⟨?_, ?_, ?_, ?_, ?_⟩
  · have h1 := argminPt_orderPoints sumXY q huMinS ((hmem _).mpr (Or.inl rfl))
    have h2 := argminPt_orderPoints diffYX q huMinD ((hmem _).mpr (Or.inr (Or.inl rfl)))
    have h3 := argmaxPt_orderPoints sumXY q huMaxS ((hmem _).mpr (Or.inr (Or.inr (Or.inl rfl))))
    have h4 := argmaxPt_orderPoints diffYX q huMaxD ((hmem _).mpr (Or.inr (Or.inr (Or.inr rfl))))
    show orderPoints (orderPoints q) = orderPoints q
    unfold orderPoints at h1 h2 h3 h4 ⊢
    rw [h1, h2, h3, h4]
  · exact ⟨argminPt_mem sumXY q, fun p hp => argminPt_le sumXY q p hp⟩
  · refine ⟨argminPt_mem diffYX q, fun p hp => ?_⟩
    have := argminPt_le diffYX q p hp
    simp only [orderPoints]
    simp only [diffYX] at this
    omega
  · exact ⟨argmaxPt_mem sumXY q, fun p hp => argmaxPt_ge sumXY q p hp⟩
  · refine ⟨argmaxPt_mem diffYX q, fun p hp => ?_⟩
    have := argmaxPt_ge diffYX q p hp
    simp only [orderPoints]
    simp only [diffYX] at this
    omega

/-- Witness for `order_points_ordered` at the concrete quadrilateral
`(0,0), (10,2), (12,9), (1,10)`, whose extrema are all unique. -/
theorem order_points_ordered_witness :
    (uniqueMin sumXY ((0, 0), (10, 2), (12, 9), (1, 10)) ∧
        uniqueMax sumXY ((0, 0), (10, 2), (12, 9), (1, 10)) ∧
        uniqueMin diffYX ((0, 0), (10, 2), (12, 9), (1, 10)) ∧
        uniqueMax diffYX ((0, 0), (10, 2), (12, 9), (1, 10))) ∧
      orderPoints (orderPoints ((0, 0), (10, 2), (12, 9), (1, 10))) =
        orderPoints ((0, 0), (10, 2), (12, 9), (1, 10)) := by
  refine ⟨⟨by decide, by decide, by decide, by decide⟩, ?_⟩
  exact (order_points_ordered ((0, 0), (10, 2), (12, 9), (1, 10))
    (by decide) (by decide) (by decide) (by decide)).1

/-! ## Rational helpers

Python float `max`/`min`/`abs` modelled as conditionals on `ℚ` (Mathlib's
lattice `max`/`min` on `ℚ` is extensionally the same; the conditional form
is kept because it matches the Python builtins directly). -/

/-- Python `max(a, b)` on floats. -/
def qmax (a b : ℚ) : ℚ := if a ≤ b then b else a

/-- Python `min(a, b)` on floats. -/
def qmin (a b : ℚ) : ℚ := if a ≤ b then a else b

/-- Python `abs(a)` on floats. -/
def qabs (a : ℚ) : ℚ := if a < 0 then -a else a

lemma qmax_eq (a b : ℚ) : qmax a b = max a b := (max_def a b).symm

lemma qmin_eq (a b : ℚ) : qmin a b = min a b := (min_def a b).symm

lemma qabs_eq (a : ℚ) : qabs a = |a| := by
  unfold qabs
  split_ifs with h
  · exact (abs_of_neg h).symm
  · exact (abs_of_nonneg (not_lt.mp h)).symm

/-! ## Effective overlap threshold (`_effective_overlap_threshold` in
`pipeline/stitch.py`)

Layout modes are the strings used by the code (`"bottom_bar"`,
`"full_scroll"`, `"page_turn"`); any other string falls into the default
branch, exactly as the Python `if` chain does. -/

/-- `_effective_overlap_threshold(raw_threshold, layout_mode)`. -/
def effectiveOverlapThreshold (rawThreshold : ℚ) (layoutMode : String) : ℚ :=
  let raw := qmax 0 (qmin 1 rawThreshold)
  if layoutMode = "bottom_bar" then qmax (56/100) (qmin (9/10) (1/2 + raw * (52/100)))
  else if layoutMode = "full_scroll" then qmax (62/100) (qmin (94/100) (55/100 + raw * (58/100)))
  else if layoutMode = "page_turn" then qmax (74/100) (qmin (97/100) (68/100 + raw * (28/100)))
  else qmax (6/10) (qmin (92/100) (54/100 + raw * (56/100)))

/-- The clamp band `(lo, hi)` of each layout's branch of
`_effective_overlap_threshold` — the layout's advertised operating band. -/
def overlapThresholdBand (layoutMode : String) : ℚ × ℚ :=
  if layoutMode = "bottom_bar" then (56/100, 9/10)
  else if layoutMode = "full_scroll" then (62/100, 94/100)
  else if layoutMode = "page_turn" then (74/100, 97/100)
  else (6/10, 92/100)

/-- C4: for every layout mode, `_effective_overlap_threshold` is monotone
non-decreasing in the raw threshold, its output lies in the layout's band,
and the full_scroll band is `[0.62, 0.94]`. -/
theorem effective_overlap_threshold_monotone_banded (layoutMode : String) :
    (∀ r1 r2 : ℚ, r1 ≤ r2 →
        effectiveOverlapThreshold r1 layoutMode ≤ effectiveOverlapThreshold r2 layoutMode) ∧
      (∀ r : ℚ,
        (overlapThresholdBand layoutMode).1 ≤ effectiveOverlapThreshold r layoutMode ∧
          effectiveOverlapThreshold r layoutMode ≤ (overlapThresholdBand layoutMode).2) ∧
      overlapThresholdBand "full_scroll" = (62/100, 94/100) := by
  refine ⟨?_, ?_, by simp [overlapThresholdBand]⟩
  · intro r1 r2 h
    have hc : qmax 0 (qmin 1 r1) ≤ qmax 0 (qmin 1 r2) := by
      rw [qmax_eq, qmax_eq, qmin_eq, qmin_eq]
      exact max_le_max le_rfl (min_le_min le_rfl h)
    unfold effectiveOverlapThreshold
    simp only [qmax_eq, qmin_eq]
    split_ifs <;>
      exact max_le_max le_rfl (min_le_min le_rfl
        (add_le_add_left (mul_le_mul_of_nonneg_right hc (by norm_num)) _))
  · intro r
    unfold effectiveOverlapThreshold overlapThresholdBand
    simp only [qmax_eq, qmin_eq]
    split_ifs <;>
      exact ⟨le_max_left _ _, max_le (by norm_num) (min_le_left _ _)⟩

/-- Witness for `effective_overlap_threshold_monotone_banded`: monotonicity
instantiated at raw thresholds 1/4 ≤ 1/2 on the full_scroll layout. -/
theorem effective_overlap_threshold_witness :
    ((1 : ℚ)/4 ≤ 1/2) ∧
      effectiveOverlapThreshold (1/4) "full_scroll" ≤
        effectiveOverlapThreshold (1/2) "full_scroll" :=
  ⟨by norm_num,
    (effective_overlap_threshold_monotone_banded "full_scroll").1 (1/4) (1/2) (by norm_num)⟩

/-! ## Whitespace pagination (`_slice_by_whitespace` and
`_merge_short_trailing_page` in `pipeline/sheet_finalize.py`)

An image is a list of rows (row contents are irrelevant to slicing, so the
row type is a parameter).  `row_density` is a numpy float array computed by
`cv2.adaptiveThreshold` upstream and passed to `_slice_by_whitespace` as an
argument; it is modelled as a function `ℕ → ℚ` on row indices.  The
`blank_threshold` value, derived inside the function from a numpy float
percentile of that array, is abstracted as a parameter `blank`; all
theorems below hold for every `density` and every `blank`. -/

/-- The `page_fill_mode` literal of `sheet_finalize.py`. -/
inductive PageFillMode where
  | performance
  | balanced
deriving DecidableEq, Repr

/-- First index (in list order) minimizing `f`, scanning like `np.argmin`
(ties keep the earliest). -/
def firstMinBy {β : Type} [LinearOrder β] (f : ℕ → β) : List ℕ → Option ℕ
  | [] => none
  | i :: rest => some (rest.foldl (fun b j => if f j < f b then j else b) i)

/-- The clamp after the backward/forward searches of the
`_slice_by_whitespace` loop body: `cut = max(cut, start + min_h);
cut = min(cut, h); if cut <= start: cut = min(h, start + target_h)`. -/
def clampCut (h targetH minH start cut : ℕ) : ℕ :=
  let cut3 := min (max cut (start + minH)) h
  if cut3 ≤ start then min h (start + targetH) else cut3

/-- The candidate-tightening step of the blank-row preference block of
`_slice_by_whitespace` (`if cut_density > blank_threshold * 1.12`): in
performance mode restrict the blank rows to those at or after `min_pick`
when any remain. -/
def pickAbsolute (mode : PageFillMode) (targetH minH start hardEnd : ℕ)
    (blankIdx : List ℕ) : List ℕ :=
  if mode = .performance then
    let minPick := max (start + minH) (hardEnd - targetH * 9 / 100)
    let tightened := blankIdx.filter (fun i => minPick ≤ i)
    if tightened ≠ [] then tightened else blankIdx
  else blankIdx

/-- The pick-and-accept step of the blank-row preference: among the blank
rows of `[search_lo, search_hi]`, take the one nearest `hard_end` and use
it only if it leaves at least `max(96, min_h·42/100)` rows on the page. -/
def pickBlankCut (mode : PageFillMode) (density : ℕ → ℚ) (blank : ℚ)
    (targetH minH start hardEnd searchLo searchHi cut : ℕ) : ℕ :=
  let blankIdx := (List.range' searchLo (searchHi + 1 - searchLo)).filter
    (fun i => density i ≤ blank)
  if blankIdx = [] then cut
  else
    let absolute := pickAbsolute mode targetH minH start hardEnd blankIdx
    let pick := (firstMinBy (fun i => max i hardEnd - min i hardEnd) absolute).getD cut
    if max 96 (minH * 42 / 100) ≤ pick - start then pick else cut

/-- The tail of the `_slice_by_whitespace` loop body: clamp the cut into
`[start + min_h, h]` and then prefer a clearly blank row when the chosen
cut still falls on a dense row. -/
def finishCut (mode : PageFillMode) (density : ℕ → ℚ) (blank : ℚ)
    (h targetH minH start hardEnd searchLo searchHi cut2 : ℕ) : ℕ :=
  let cut4 := clampCut h targetH minH start cut2
  let cutDensity2 := density (min (h - 1) (cut4 - 1))
  if cutDensity2 > blank * (112/100) then
    pickBlankCut mode density blank targetH minH start hardEnd searchLo searchHi cut4
  else cut4

/-- The cut row chosen by one iteration of the `_slice_by_whitespace` loop
body (the code between computing `hard_end` and `pages.append`), for a
cursor at `start`.  Only evaluated when `start < h` and `start + target_h < h`. -/
def chooseCut (mode : PageFillMode) (density : ℕ → ℚ) (blank : ℚ)
    (h targetH minH start : ℕ) : ℕ :=
  let hardEnd := min h (start + targetH)
  let backWindow := if mode = .performance then targetH * 14 / 100 else targetH * 28 / 100
  let forwardWindow := if mode = .performance then targetH * 28 / 100 else targetH * 20 / 100
  let backBlankMult : ℚ := if mode = .performance then 82/100 else 1
  let backDensityRatio : ℚ := if mode = .performance then 72/100 else 82/100
  let searchLo := max (start + minH) (hardEnd - backWindow)
  let searchMid := hardEnd
  let searchHi := min (h - 1) (hardEnd + forwardWindow)
  let cut0 := hardEnd
  let cut1 :=
    if searchLo < searchMid then
      let backRange := List.range' searchLo (searchMid - searchLo)
      let backCut :=
        if mode = .performance then
          match (backRange.filter (fun i => density i ≤ blank * (96/100))).getLast? with
          | some i => i
          | none => (firstMinBy density backRange).getD cut0
        else (firstMinBy density backRange).getD cut0
      let backDensity := density (min (h - 1) backCut)
      let hardDensity := density (min (h - 1) (hardEnd - 1))
      if backDensity ≤ blank * backBlankMult ∨ backDensity < hardDensity * backDensityRatio
      then backCut else cut0
    else cut0
  let cutDensity1 := density (min (h - 1) (cut1 - 1))
  let cut2 :=
    if (cut1 - start < minH ∨ cutDensity1 > blank * (125/100)) ∧ searchMid < searchHi then
      let fwdCut := (firstMinBy density (List.range' searchMid (searchHi + 1 - searchMid))).getD cut1
      let fwdDensity := density (min (h - 1) fwdCut)
      if fwdDensity ≤ cutDensity1 * (94/100) then fwdCut else cut1
    else cut1
  finishCut mode density blank h targetH minH start hardEnd searchLo searchHi cut2

/-- The `(start, cut)` spans produced by the `while start < h` loop of
`_slice_by_whitespace`.  The loop advances `start` to the chosen cut each
iteration; `fuel ≥ h - start` makes the recursion total. -/
def sliceSpans (mode : PageFillMode) (density : ℕ → ℚ) (blank : ℚ)
    (h targetH minH : ℕ) : ℕ → ℕ → List (ℕ × ℕ)
  | 0, _ => []
  | fuel + 1, start =>
    if h ≤ start then []
    else if h ≤ start + targetH then [(start, h)]
    else
      let cut := chooseCut mode density blank h targetH minH start
      (start, cut) :: sliceSpans mode density blank h targetH minH fuel cut

/-- The `while len(result) >= 2` loop of `_merge_short_trailing_page`,
acting on the reversed page list (head = trailing page), with one unit of
fuel per loop iteration. -/
def mergeTrailRev {α : Type} (minTail maxPrev maxPrevSoft : ℕ) :
    ℕ → List (List α) → List (List α)
  | 0, l => l
  | fuel + 1, l =>
    match l with
    | tl :: prev :: rest =>
      if minTail ≤ tl.length then tl :: prev :: rest
      else
        let canHardMerge := prev.length + tl.length ≤ maxPrev
        let canSoftMerge := tl.length ≤ minTail * 62 / 100 ∧ prev.length + tl.length ≤ maxPrevSoft
        if canHardMerge ∨ canSoftMerge then
          mergeTrailRev minTail maxPrev maxPrevSoft fuel ((prev ++ tl) :: rest)
        else tl :: prev :: rest
    | l => l

/-- `min_tail` of `_merge_short_trailing_page`: `max(84, target_h·0.42)` in
performance mode, `max(84, target_h·0.22)` in balanced mode. -/
def tailMinTail (targetH : ℕ) (mode : PageFillMode) : ℕ :=
  if mode = .performance then max 84 (targetH * 42 / 100) else max 84 (targetH * 22 / 100)

/-- `max_prev` of `_merge_short_trailing_page`: `target_h·1.18` in
performance mode, `target_h·1.08` in balanced mode. -/
def tailMaxPrev (targetH : ℕ) (mode : PageFillMode) : ℕ :=
  if mode = .performance then targetH * 118 / 100 else targetH * 108 / 100

/-- `max_prev_soft` of `_merge_short_trailing_page`: `target_h·1.24` in
performance mode, `target_h·1.16` in balanced mode. -/
def tailMaxPrevSoft (targetH : ℕ) (mode : PageFillMode) : ℕ :=
  if mode = .performance then targetH * 124 / 100 else targetH * 116 / 100

/-- `_merge_short_trailing_page(pages, target_h, page_fill_mode)`. -/
def mergeShortTrailingPage {α : Type} (pages : List (List α)) (targetH : ℕ)
    (mode : PageFillMode) : List (List α) :=
  if pages.length < 2 then pages
  else
    (mergeTrailRev (tailMinTail targetH mode) (tailMaxPrev targetH mode)
      (tailMaxPrevSoft targetH mode) pages.length pages.reverse).reverse

/-- `_slice_by_whitespace(image, row_density, target_h, page_fill_mode)`:
walk a cursor from 0 cutting pages, then merge a short trailing page. -/
def sliceByWhitespace {α : Type} (rows : List α) (density : ℕ → ℚ) (blank : ℚ)
    (targetH : ℕ) (mode : PageFillMode) : List (List α) :=
  let h := rows.length
  let minH := max 180 (targetH * (if mode = .performance then 74 else 58) / 100)
  let spans := sliceSpans mode density blank h targetH minH h 0
  mergeShortTrailingPage (spans.map (fun s => ((rows.drop s.1).take (s.2 - s.1)))) targetH mode

lemma foldl_min_mem {β : Type} [LinearOrder β] (f : ℕ → β) (l : List ℕ) (init : ℕ) :
    l.foldl (fun b j => if f j < f b then j else b) init ∈ init :: l := by
  induction l generalizing init with
  | nil => simp
  | cons j rest ih =>
    simp only [List.foldl_cons]
    rcases List.mem_cons.mp (ih (if f j < f init then j else init)) with h | h
    · rw [h]
      split_ifs <;> simp
    · simp [h]

lemma firstMinBy_getD_mem {β : Type} [LinearOrder β] (f : ℕ → β) (l : List ℕ) (d : ℕ)
    (h : l ≠ []) : (firstMinBy f l).getD d ∈ l := by
  cases l with
  | nil => exact absurd rfl h
  | cons i rest => simpa [firstMinBy] using foldl_min_mem f rest i

lemma pickAbsolute_subset (mode : PageFillMode) (targetH minH start hardEnd : ℕ)
    (blankIdx : List ℕ) :
    ∀ x ∈ pickAbsolute mode targetH minH start hardEnd blankIdx, x ∈ blankIdx := by
  unfold pickAbsolute
  dsimp only
  split_ifs <;> intro x hx <;> first | exact hx | exact List.mem_of_mem_filter hx

lemma pickAbsolute_ne_nil (mode : PageFillMode) (targetH minH start hardEnd : ℕ)
    (blankIdx : List ℕ) (h : blankIdx ≠ []) :
    pickAbsolute mode targetH minH start hardEnd blankIdx ≠ [] := by
  unfold pickAbsolute
  dsimp only
  split_ifs <;> assumption

lemma pickBlankCut_bounds (mode : PageFillMode) (density : ℕ → ℚ) (blank : ℚ)
    (targetH minH start hardEnd searchLo searchHi cut h : ℕ)
    (hc1 : start < cut) (hc2 : cut ≤ h) (hhi : searchHi < h) :
    start < pickBlankCut mode density blank targetH minH start hardEnd searchLo searchHi cut ∧
      pickBlankCut mode density blank targetH minH start hardEnd searchLo searchHi cut ≤ h := by
  unfold pickBlankCut
  dsimp only
  by_cases hE :
      ((List.range' searchLo (searchHi + 1 - searchLo)).filter
        (fun i => density i ≤ blank)) = []
  · rw [if_pos hE]
    exact ⟨hc1, hc2⟩
  · rw [if_neg hE]
    have h1 := firstMinBy_getD_mem (fun i => max i hardEnd - min i hardEnd)
      (pickAbsolute mode targetH minH start hardEnd
        ((List.range' searchLo (searchHi + 1 - searchLo)).filter (fun i => density i ≤ blank)))
      cut (pickAbsolute_ne_nil mode targetH minH start hardEnd _ hE)
    have h2 := pickAbsolute_subset mode targetH minH start hardEnd _ _ h1
    have h3 := List.mem_range'_1.mp (List.mem_of_mem_filter h2)
    split_ifs with hg
    · exact ⟨by omega, by omega⟩
    · exact ⟨hc1, hc2⟩

lemma clampCut_bounds (h targetH minH start cut : ℕ) (h1 : start < h) (h3 : 1 ≤ minH) :
    start < clampCut h targetH minH start cut ∧ clampCut h targetH minH start cut ≤ h := by
  unfold clampCut
  dsimp only
  split_ifs <;> omega

lemma finishCut_bounds (mode : PageFillMode) (density : ℕ → ℚ) (blank : ℚ)
    (h targetH minH start hardEnd searchLo searchHi cut2 : ℕ)
    (h1 : start < h) (h3 : 1 ≤ minH) (hhi : searchHi < h) :
    start < finishCut mode density blank h targetH minH start hardEnd searchLo searchHi cut2 ∧
      finishCut mode density blank h targetH minH start hardEnd searchLo searchHi cut2 ≤ h := by
  unfold finishCut
  dsimp only
  split_ifs with hD
  · exact pickBlankCut_bounds _ _ _ _ _ _ _ _ _ _ _
      (clampCut_bounds _ _ _ _ _ h1 h3).1 (clampCut_bounds _ _ _ _ _ h1 h3).2 hhi
  · exact clampCut_bounds _ _ _ _ _ h1 h3

lemma chooseCut_bounds (mode : PageFillMode) (density : ℕ → ℚ) (blank : ℚ)
    (h targetH minH start : ℕ) (h1 : start < h) (h3 : 1 ≤ minH) :
    start < chooseCut mode density blank h targetH minH start ∧
      chooseCut mode density blank h targetH minH start ≤ h := by
  unfold chooseCut
  dsimp only
  apply finishCut_bounds
  · exact h1
  · exact h3
  · omega

lemma sliceSpans_join {α : Type} (mode : PageFillMode) (density : ℕ → ℚ) (blank : ℚ)
    (targetH minH : ℕ) (h3 : 1 ≤ minH) (rows : List α) :
    ∀ fuel start, rows.length ≤ start + fuel →
      ((sliceSpans mode density blank rows.length targetH minH fuel start).map
        (fun s => ((rows.drop s.1).take (s.2 - s.1)))).flatten = rows.drop start := by
  intro fuel
  induction fuel with
  | zero =>
    intro start hle
    have hls : rows.length ≤ start := by omega
    simp [sliceSpans, List.drop_eq_nil_of_le hls]
  | succ fuel ih =>
    intro start hle
    by_cases hA : rows.length ≤ start
    · simp [sliceSpans, hA, List.drop_eq_nil_of_le hA]
    · by_cases hB : rows.length ≤ start + targetH
      · simp only [sliceSpans, if_neg hA, if_pos hB, List.map_cons, List.map_nil,
          List.flatten_cons, List.flatten_nil, List.append_nil]
        exact List.take_of_length_le (by simp)
      · have hcb := chooseCut_bounds mode density blank rows.length targetH minH start
          (by omega) h3
        simp only [sliceSpans, if_neg hA, if_neg hB, List.map_cons, List.flatten_cons]
        rw [ih _ (by omega)]
        have hdd : rows.drop (chooseCut mode density blank rows.length targetH minH start) =
            (rows.drop start).drop
              (chooseCut mode density blank rows.length targetH minH start - start) := by
          rw [List.drop_drop]
          congr 1
          omega
        rw [hdd, List.take_append_drop]

lemma mergeTrailRev_join {α : Type} (minTail maxPrev maxPrevSoft : ℕ) :
    ∀ fuel (l : List (List α)),
      (mergeTrailRev minTail maxPrev maxPrevSoft fuel l).reverse.flatten = l.reverse.flatten := by
  intro fuel
  induction fuel with
  | zero => intro l; rfl
  | succ fuel ih =>
    intro l
    rcases l with _ | ⟨tl, _ | ⟨prev, rest⟩⟩
    · rfl
    · rfl
    · simp only [mergeTrailRev]
      split_ifs with h1 h2
      · rfl
      · rw [ih]
        simp [List.flatten_append, List.append_assoc]
      · rfl

lemma mergeShortTrailingPage_join {α : Type} (pages : List (List α)) (targetH : ℕ)
    (mode : PageFillMode) :
    (mergeShortTrailingPage pages targetH mode).flatten = pages.flatten := by
  unfold mergeShortTrailingPage
  split_ifs <;> first | rfl | (rw [mergeTrailRev_join]; simp)

/-- C2: the whitespace-slicing path of pagination partitions the merged
image: the concatenation of the produced pages (after the short-trailing
merge) is exactly the input row sequence, so page heights sum to the input
height and no input row is duplicated or dropped — in particular no row
appears in two consecutive pages, and each page starts at the previous
page's cut row.  Holds for every density array, blank threshold, target
height and fill mode. -/
theorem slice_by_whitespace_partition {α : Type} (rows : List α) (density : ℕ → ℚ)
    (blank : ℚ) (targetH : ℕ) (mode : PageFillMode) :
    (sliceByWhitespace rows density blank targetH mode).flatten = rows ∧
      ((sliceByWhitespace rows density blank targetH mode).map List.length).sum =
        rows.length := by
  have hjoin : (sliceByWhitespace rows density blank targetH mode).flatten = rows := by
    unfold sliceByWhitespace
    dsimp only
    rw [mergeShortTrailingPage_join]
    simpa using sliceSpans_join mode density blank targetH
      (max 180 (targetH * (if mode = .performance then 74 else 58) / 100))
      (by omega) rows rows.length 0 (by omega)
  refine ⟨hjoin, ?_⟩
  calc ((sliceByWhitespace rows density blank targetH mode).map List.length).sum
      = (sliceByWhitespace rows density blank targetH mode).flatten.length :=
        (List.length_flatten _).symm
    _ = rows.length := by rw [hjoin]

lemma mergeTrailRev_length_le {α : Type} (a b c : ℕ) :
    ∀ fuel (l : List (List α)), (mergeTrailRev a b c fuel l).length ≤ l.length := by
  intro fuel
  induction fuel with
  | zero => intro l; exact le_rfl
  | succ fuel ih =>
    intro l
    rcases l with _ | ⟨tl, _ | ⟨prev, rest⟩⟩
    · exact le_rfl
    · exact le_rfl
    · simp only [mergeTrailRev]
      split_ifs with h1 h2
      · exact le_rfl
      · calc (mergeTrailRev a b c fuel ((prev ++ tl) :: rest)).length
            ≤ ((prev ++ tl) :: rest).length := ih _
          _ ≤ (tl :: prev :: rest).length := by simp
      · exact le_rfl

lemma mergeShortTrailingPage_step {α : Type} (init : List (List α)) (prev tl : List α)
    (targetH : ℕ) (mode : PageFillMode) :
    mergeShortTrailingPage (init ++ [prev, tl]) targetH mode =
      (if tailMinTail targetH mode ≤ tl.length then tl :: prev :: init.reverse
       else if prev.length + tl.length ≤ tailMaxPrev targetH mode ∨
           (tl.length ≤ tailMinTail targetH mode * 62 / 100 ∧
             prev.length + tl.length ≤ tailMaxPrevSoft targetH mode) then
         mergeTrailRev (tailMinTail targetH mode) (tailMaxPrev targetH mode)
           (tailMaxPrevSoft targetH mode) (init.length + 1) ((prev ++ tl) :: init.reverse)
       else tl :: prev :: init.reverse).reverse := by
  unfold mergeShortTrailingPage
  rw [if_neg (by simp only [List.length_append, List.length_cons, List.length_nil] <;> omega)]
  rw [(by simp only [List.length_append, List.length_cons, List.length_nil] <;> omega :
    (init ++ [prev, tl]).length = init.length + 1 + 1)]
  rw [(by simp : (init ++ [prev, tl]).reverse = tl :: prev :: init.reverse)]
  simp only [mergeTrailRev]

set_option maxRecDepth 40000 in
/-- The claim's merge condition fails on the code: with target height 1000
in performance mode, a 200-row trailing page after a 1030-row page has
combined height 1230, above the claim's 1.18·target = 1180 cap — yet the
code merges them (through its soft-merge branch, which allows up to
1.24·target when the tail is at most 0.62·min_tail), producing a single
1230-row page instead of leaving the list unchanged. -/
theorem merge_short_trailing_claim_counterexample :
    (1000 * 118 / 100 : ℕ) < 1030 + 200 ∧
      (200 : ℕ) < max 84 (1000 * 42 / 100) ∧
      mergeShortTrailingPage [List.replicate 1030 (), List.replicate 200 ()] 1000
          PageFillMode.performance =
        [List.replicate 1230 ()] := by
  refine ⟨by norm_num, by norm_num, ?_⟩
  rfl

/-- C9 (amended): the short-trailing-page merge concatenates the last page
onto its predecessor exactly when the last page is shorter than
`max(84, 0.42·target)` (performance; `0.22·target` balanced) and either the
combined height is at most `1.18·target` (`1.08` balanced) or the last page
is at most 0.62 of that tail threshold and the combined height is at most
`1.24·target` (`1.16` balanced); it then repeats the same test on the new
trailing page.  When the test fails the page list is returned unchanged,
and merging never duplicates or drops rows. -/
theorem merge_short_trailing_amended {α : Type} (init : List (List α)) (prev tl : List α)
    (targetH : ℕ) (mode : PageFillMode) :
    ((tailMinTail targetH mode ≤ tl.length ∨
        (tailMaxPrev targetH mode < prev.length + tl.length ∧
          (tailMinTail targetH mode * 62 / 100 < tl.length ∨
            tailMaxPrevSoft targetH mode < prev.length + tl.length))) →
      mergeShortTrailingPage (init ++ [prev, tl]) targetH mode = init ++ [prev, tl]) ∧
      ((tl.length < tailMinTail targetH mode ∧
          (prev.length + tl.length ≤ tailMaxPrev targetH mode ∨
            (tl.length ≤ tailMinTail targetH mode * 62 / 100 ∧
              prev.length + tl.length ≤ tailMaxPrevSoft targetH mode))) →
        (mergeShortTrailingPage (init ++ [prev, tl]) targetH mode).length <
          (init ++ [prev, tl]).length) ∧
      (mergeShortTrailingPage (init ++ [prev, tl]) targetH mode).flatten =
        (init ++ [prev, tl]).flatten := by
  refine ⟨?_, ?_, mergeShortTrailingPage_join _ _ _⟩
  · intro h
    rw [mergeShortTrailingPage_step]
    split_ifs with h1 h2
    · simp
    · exfalso
      rcases h with h | ⟨ha, hb⟩
      · omega
      · rcases h2 with h2 | ⟨h2a, h2b⟩ <;> omega
    · simp
  · intro h
    rw [mergeShortTrailingPage_step]
    split_ifs with h1 h2
    · omega
    · calc ((mergeTrailRev (tailMinTail targetH mode) (tailMaxPrev targetH mode)
            (tailMaxPrevSoft targetH mode) (init.length + 1)
            ((prev ++ tl) :: init.reverse)).reverse).length
          ≤ ((prev ++ tl) :: init.reverse).length := by
            rw [List.length_reverse]
            exact mergeTrailRev_length_le _ _ _ _ _
        _ < (init ++ [prev, tl]).length := by simp
    · exfalso
      rcases h with ⟨ha, hb⟩
      rcases hb with hb | ⟨hb1, hb2⟩ <;> omega

/-- Witness for `merge_short_trailing_amended`: with target 1000 in
performance mode, a 1030-row page followed by a 200-row page is merged,
shortening the page list. -/
theorem merge_short_trailing_amended_witness :
    ((List.replicate 200 ()).length < tailMinTail 1000 PageFillMode.performance ∧
        ((List.replicate 1030 ()).length + (List.replicate 200 ()).length ≤
            tailMaxPrev 1000 PageFillMode.performance ∨
          ((List.replicate 200 ()).length ≤ tailMinTail 1000 PageFillMode.performance * 62 / 100 ∧
            (List.replicate 1030 ()).length + (List.replicate 200 ()).length ≤
              tailMaxPrevSoft 1000 PageFillMode.performance))) ∧
      (mergeShortTrailingPage ([] ++ [List.replicate 1030 (), List.replicate 200 ()]) 1000
          PageFillMode.performance).length <
        (([] : List (List Unit)) ++ [List.replicate 1030 (), List.replicate 200 ()]).length := by
  have hc : (List.replicate 200 ()).length < tailMinTail 1000 PageFillMode.performance ∧
      ((List.replicate 1030 ()).length + (List.replicate 200 ()).length ≤
          tailMaxPrev 1000 PageFillMode.performance ∨
        ((List.replicate 200 ()).length ≤ tailMinTail 1000 PageFillMode.performance * 62 / 100 ∧
          (List.replicate 1030 ()).length + (List.replicate 200 ()).length ≤
            tailMaxPrevSoft 1000 PageFillMode.performance)) := by
    refine ⟨by simp only [List.length_replicate]; decide,
      Or.inr ⟨by simp only [List.length_replicate]; decide,
        by simp only [List.length_replicate]; decide⟩⟩
  exact ⟨hc, (merge_short_trailing_amended [] (List.replicate 1030 ())
    (List.replicate 200 ()) 1000 PageFillMode.performance).2.1 hc⟩

/-! ## Layout resolution (`resolve_layout_hint` in
`pipeline/layout_profiles.py`) -/

/-- Whether the string is a key of `DETECTION_PROFILES`. -/
def isKnownLayout (s : String) : Bool :=
  s = "bottom_bar" || s = "full_scroll" || s = "page_turn"

/-- `resolve_layout_hint(layout_hint, source_type=..., prefer_bottom=...)`. -/
def resolveLayoutHint (layoutHint : Option String) (sourceType : Option String)
    (preferBottom : Option Bool) : String :=
  match layoutHint with
  | some s =>
    if isKnownLayout s then s
    else
      match preferBottom with
      | some true => "bottom_bar"
      | some false => "full_scroll"
      | none => if sourceType = some "youtube" then "bottom_bar" else "full_scroll"
  | none =>
    match preferBottom with
    | some true => "bottom_bar"
    | some false => "full_scroll"
    | none => if sourceType = some "youtube" then "bottom_bar" else "full_scroll"

/-! ## Scroll stitching (`stitch_pages`, `_overlap_score`, `_stitch_pair`,
`_align_width`, `_pad_to_width` in `pipeline/stitch.py`)

An image is a list of rows of rational pixel values.  The OpenCV work of
`_estimate_vertical_shift` (resize, blur, row-mean correlation, phase
correlation) enters as the oracle `shiftE`, returning the `(shift_px,
shift_conf)` pair, and the strip mean-absolute-difference of the
`_overlap_score` candidate loop (on the resized, blurred grayscale images)
enters as the oracle `diffE`; theorems quantify over both oracles.
`_filter_redundant_frames` and `_collect_page_turn_pages` are likewise
cv2-bound and enter `stitch_pages` as list transformers. -/

/-- An image: a list of rows of pixel values. -/
abbrev Image := List (List ℚ)

/-- `shape[1]`: the row width of a (rectangular) image, 0 when empty. -/
def imgW (img : Image) : ℕ :=
  match img with
  | [] => 0
  | r :: _ => r.length

/-- `_pad_to_width(image, target_w)`: centre the rows inside white
(255-valued) padding when `target_w` exceeds the current width. -/
def padToWidth (img : Image) (targetW : ℕ) : Image :=
  let w := imgW img
  if targetW ≤ w then img
  else
    let padLeft := (targetW - w) / 2
    let padRight := targetW - w - padLeft
    img.map (fun row => List.replicate padLeft (255 : ℚ) ++ row ++ List.replicate padRight 255)

/-- `_align_width(img_a, img_b)`: pad both to the wider width. -/
def alignWidth (a b : Image) : Image × Image :=
  if imgW a = imgW b then (a, b)
  else (padToWidth a (max (imgW a) (imgW b)), padToWidth b (max (imgW a) (imgW b)))

/-- The `np.linspace(1.0, 0.0, n)` value at index `i`: the linear alpha
ramp from 1 down to 0 across the seam. -/
def alphaAt (n i : ℕ) : ℚ :=
  if n ≤ 1 then 1 else 1 - (i : ℚ) / ((n : ℚ) - 1)

/-- One blended pixel:
`np.clip(a*alpha + b*(1-alpha), 0, 255).astype(np.uint8)`. -/
def blendPixel (alpha a b : ℚ) : ℚ :=
  ((⌊qmax 0 (qmin 255 (a * alpha + b * (1 - alpha)))⌋ : ℤ) : ℚ)

/-- The seam rows blended with the linear alpha ramp (1 → 0): row `i` mixes
row `i` of the bottom strip of the buffer with row `i` of the top strip of
the next frame. -/
def blendRows (seam : ℕ) (a b : Image) : Image :=
  (List.range seam).map (fun i =>
    List.zipWith (fun x y => blendPixel (alphaAt seam i) x y) (a.getD i []) (b.getD i []))

/-- `_stitch_pair(top, bottom, overlap_px)`. -/
def stitchPair (top bottom : Image) (overlapPx : Option ℕ) : Image :=
  let t := (alignWidth top bottom).1
  let b := (alignWidth top bottom).2
  let overlap0 := match overlapPx with
    | some o => o
    | none => min (min t.length b.length * 25 / 100) 150
  let overlap := min overlap0 (min t.length b.length - 1)
  if overlap = 0 then t ++ b
  else
    let keepTop := if overlap < t.length then t.take (t.length - overlap) else []
    let seam := max 10 (min overlap 42)
    let blended := blendRows seam (t.drop (t.length - seam)) (b.take seam)
    let restBottom := if seam < b.length then b.drop seam else []
    keepTop ++ blended ++ restBottom

/-- The search band `[lo, hi]` of the `_overlap_score` candidate loop:
centred on the expected overlap `h − max(1, |shift|)` with radius
`max(20, h·0.1)`, widened to the full `[min_overlap, max_overlap]` range
when the shift confidence is low or the band collapses. -/
def overlapBand (h : ℕ) (shift conf : ℚ) : ℕ × ℕ :=
  let minOverlap := max 24 (h * 5 / 100)
  let maxOverlap := min (h * 88 / 100) (h - 2)
  let expected := (⌊qmax (minOverlap : ℚ) (qmin (maxOverlap : ℚ) ((h : ℚ) - qmax 1 (qabs shift)))⌋).toNat
  let searchRadius := max 20 (h / 10)
  let lo := max minOverlap (expected - searchRadius)
  let hi := min maxOverlap (expected + searchRadius)
  if conf < 1/4 ∨ hi ≤ lo then (minOverlap, maxOverlap) else (lo, hi)

/-- The candidate overlaps `range(lo, hi + 1, step)` with
`step = 2 if hi - lo <= 160 else 3`. -/
def overlapCandidates (lo hi : ℕ) : List ℕ :=
  let step := if hi - lo ≤ 160 then 2 else 3
  List.range' lo ((hi + 1 - lo + (step - 1)) / step) step

/-- One candidate of the best-overlap scan of `_overlap_score`: replace the
running `(best_overlap, best_diff)` when this candidate's strip difference
is strictly smaller (`best_diff = none` models the initial `inf`). -/
def bestStep (d : ℕ → ℚ) (st : ℕ × Option ℚ) (o : ℕ) : ℕ × Option ℚ :=
  match st.2 with
  | none => (o, some (d o))
  | some bd => if d o < bd then (o, some (d o)) else st

/-- The best-overlap scan of `_overlap_score`: starting from
`best_overlap = lo, best_diff = inf`, keep the first candidate attaining
the minimal strip difference. -/
def bestOverlapFold (d : ℕ → ℚ) (init : ℕ) (cands : List ℕ) : ℕ × Option ℚ :=
  cands.foldl (bestStep d) (init, none)

/-- The score computed from the winning strip difference:
`1 - best_diff/255` clamped into `[0, 1]`, damped by `0.9` on low shift
confidence, and `0` when no candidate was scored (`best_diff` stayed
infinite). -/
def overlapScoreValue (conf : ℚ) (bestDiff : Option ℚ) : ℚ :=
  match bestDiff with
  | none => 0
  | some bd =>
    let score0 := qmax 0 (qmin 1 (1 - bd / 255))
    if conf < 15/100 ∧ score0 < 78/100 then score0 * (9/10) else score0

/-- `_overlap_score(img_a, img_b)`, returning
`(score, best_overlap, shift_px)`; `shiftE` and `diffE` stand for the
cv2-computed shift estimate and candidate strip differences. -/
def overlapScore (shiftE : Image → Image → ℚ × ℚ) (diffE : Image → Image → ℕ → ℚ)
    (imgA imgB : Image) : ℚ × ℕ × ℚ :=
  let a0 := (alignWidth imgA imgB).1
  let b0 := (alignWidth imgA imgB).2
  let h := min a0.length b0.length
  let w := min (imgW a0) (imgW b0)
  if h ≤ 2 ∨ w ≤ 2 then (0, 0, 0)
  else
    let shift := (shiftE a0 b0).1
    let conf := (shiftE a0 b0).2
    let minOverlap := max 24 (h * 5 / 100)
    let maxOverlap := min (h * 88 / 100) (h - 2)
    if maxOverlap ≤ minOverlap then (0, minOverlap, shift)
    else
      let band := overlapBand h shift conf
      let best := bestOverlapFold (diffE a0 b0) band.1 (overlapCandidates band.1 band.2)
      (overlapScoreValue conf best.2, best.1, shift)

/-- The scroll-merge loop of `stitch_pages` (lines 53–77): keep a growing
buffer; when the pair's overlap score reaches the effective threshold,
stitch the next frame into the buffer, otherwise flush the buffer as a
completed page and restart from the next frame; the final buffer is always
flushed. -/
def stitchScroll (ovl : Image → Image → ℚ × ℕ × ℚ) (effThreshold : ℚ) :
    Image → List Image → List Image
  | buffer, [] => [buffer]
  | buffer, nxt :: rest =>
    if effThreshold ≤ (ovl buffer nxt).1 then
      stitchScroll ovl effThreshold (stitchPair buffer nxt (some (ovl buffer nxt).2.1)) rest
    else
      buffer :: stitchScroll ovl effThreshold nxt rest

/-- `stitch_pages(frame_paths, options, ...)`: temporal dedup (`filterO`
stands for the cv2-bound `_filter_redundant_frames`), then the page-turn
collector (`pageTurnO` stands for `_collect_page_turn_pages`), the
stitch-disabled passthrough, or the scroll-merge loop under the effective
overlap threshold of the resolved layout. -/
def stitchPages (filterO : List Image → List Image)
    (pageTurnO : List Image → List Image) (ovl : Image → Image → ℚ × ℕ × ℚ)
    (layoutHint : Option String) (sourceType : Option String) (enable : Bool)
    (rawThreshold : ℚ) (frames : List Image) : List Image :=
  if frames = [] then []
  else
    let layoutMode := resolveLayoutHint layoutHint sourceType none
    let filtered := filterO frames
    if filtered = [] then []
    else if layoutMode = "page_turn" then pageTurnO filtered
    else if enable = false then filtered
    else
      let effThreshold := effectiveOverlapThreshold rawThreshold layoutMode
      match filtered with
      | [] => []
      | first :: rest => stitchScroll ovl effThreshold first rest

lemma alignWidth_self (A B : Image) (hw : imgW A = imgW B) : alignWidth A B = (A, B) := by
  unfold alignWidth
  rw [if_pos hw]

lemma effectiveOverlapThreshold_full_scroll_pos (raw : ℚ) :
    0 < effectiveOverlapThreshold raw "full_scroll" := by
  unfold effectiveOverlapThreshold
  dsimp only
  rw [if_neg (by decide), if_pos rfl, qmax_eq]
  exact lt_of_lt_of_le (by norm_num) (le_max_left _ _)

lemma bestStep_fst (d : ℕ → ℚ) (st : ℕ × Option ℚ) (o : ℕ) :
    (bestStep d st o).1 = o ∨ (bestStep d st o).1 = st.1 := by
  unfold bestStep
  rcases st with ⟨n, _ | bd⟩
  · simp
  · dsimp only
    split_ifs <;> simp

lemma foldl_bestStep_fst_mem (d : ℕ → ℚ) (cands : List ℕ) :
    ∀ st : ℕ × Option ℚ, (cands.foldl (bestStep d) st).1 ∈ st.1 :: cands := by
  induction cands with
  | nil => intro st; simp
  | cons c rest ih =>
    intro st
    simp only [List.foldl_cons]
    rcases List.mem_cons.mp (ih (bestStep d st c)) with h | h
    · rcases bestStep_fst d st c with h2 | h2 <;> rw [h, h2] <;> simp
    · simp [h]

lemma bestOverlapFold_fst_mem (d : ℕ → ℚ) (init : ℕ) (cands : List ℕ) :
    (bestOverlapFold d init cands).1 ∈ init :: cands :=
  foldl_bestStep_fst_mem d cands (init, none)

lemma overlapCandidates_bounds (lo hi m : ℕ) (hm : m ∈ overlapCandidates lo hi) :
    lo ≤ m ∧ m ≤ hi := by
  unfold overlapCandidates at hm
  dsimp only at hm
  split_ifs at hm <;>
    · rw [List.mem_range'] at hm
      obtain ⟨i, hi2, rfl⟩ := hm
      omega

lemma overlapBand_le (h : ℕ) (shift conf : ℚ)
    (hlt : max 24 (h * 5 / 100) < min (h * 88 / 100) (h - 2)) :
    max 24 (h * 5 / 100) ≤ (overlapBand h shift conf).1 ∧
      (overlapBand h shift conf).1 ≤ (overlapBand h shift conf).2 ∧
      (overlapBand h shift conf).2 ≤ min (h * 88 / 100) (h - 2) := by
  unfold overlapBand
  dsimp only
  split_ifs with hc
  · exact ⟨le_rfl, le_of_lt hlt, le_rfl⟩
  · push_neg at hc
    obtain ⟨hc1, hc2⟩ := hc
    refine ⟨le_max_left _ _, ?_, min_le_left _ _⟩
    omega

lemma overlapScore_pos_bounds (shiftE : Image → Image → ℚ × ℚ)
    (diffE : Image → Image → ℕ → ℚ) (A B : Image)
    (hpos : 0 < (overlapScore shiftE diffE A B).1) :
    24 ≤ (overlapScore shiftE diffE A B).2.1 ∧
      (overlapScore shiftE diffE A B).2.1 + 2 ≤
        min (alignWidth A B).1.length (alignWidth A B).2.length := by
  unfold overlapScore at hpos ⊢
  dsimp only at hpos ⊢
  split_ifs at hpos ⊢ with h1 h2
  · norm_num at hpos
  · norm_num at hpos
  · have hmem := bestOverlapFold_fst_mem
      (diffE (alignWidth A B).1 (alignWidth A B).2)
      (overlapBand (min (alignWidth A B).1.length (alignWidth A B).2.length)
        (shiftE (alignWidth A B).1 (alignWidth A B).2).1
        (shiftE (alignWidth A B).1 (alignWidth A B).2).2).1
      (overlapCandidates
        (overlapBand (min (alignWidth A B).1.length (alignWidth A B).2.length)
          (shiftE (alignWidth A B).1 (alignWidth A B).2).1
          (shiftE (alignWidth A B).1 (alignWidth A B).2).2).1
        (overlapBand (min (alignWidth A B).1.length (alignWidth A B).2.length)
          (shiftE (alignWidth A B).1 (alignWidth A B).2).1
          (shiftE (alignWidth A B).1 (alignWidth A B).2).2).2)
    have hband := overlapBand_le
      (min (alignWidth A B).1.length (alignWidth A B).2.length)
      (shiftE (alignWidth A B).1 (alignWidth A B).2).1
      (shiftE (alignWidth A B).1 (alignWidth A B).2).2 (by omega)
    dsimp only
    rcases List.mem_cons.mp hmem with heq | hc
    · rw [heq]
      omega
    · have hcb := overlapCandidates_bounds _ _ _ hc
      omega

lemma blendRows_length (seam : ℕ) (a b : Image) : (blendRows seam a b).length = seam := by
  simp [blendRows]

/-- C3: in scroll stitching (full_scroll layout, stitching enabled, equal
frame widths, the temporal dedup keeping the frames), stitching `[A]`
produces `[A]`; and when the pair's overlap score reaches the effective
threshold, stitching `[A, B]` produces exactly one page that keeps the
buffer rows `[0, h_A − overlap)`, blends a seam of exactly
`min(overlap, 42)` rows with the linear alpha ramp (1 → 0), and appends the
rest of `B`; the page height is `h_A + h_B − overlap`.  The returned
overlap always satisfies `24 ≤ overlap ≤ min(h_A, h_B) − 2`, which is what
collapses the code's `max(10, min(overlap, 42))` seam to `min(overlap, 42)`
and its overlap clamp to the identity. -/
theorem stitch_scroll_merge_spec
    (filterO pageTurnO : List Image → List Image)
    (shiftE : Image → Image → ℚ × ℚ) (diffE : Image → Image → ℕ → ℚ)
    (sourceType : Option String) (raw : ℚ) (A B : Image)
    (hf1 : filterO [A] = [A]) (hf2 : filterO [A, B] = [A, B])
    (hw : imgW A = imgW B)
    (hsc : effectiveOverlapThreshold raw "full_scroll" ≤ (overlapScore shiftE diffE A B).1) :
    stitchPages filterO pageTurnO (overlapScore shiftE diffE) (some "full_scroll")
        sourceType true raw [A] = [A] ∧
      stitchPages filterO pageTurnO (overlapScore shiftE diffE) (some "full_scroll")
          sourceType true raw [A, B] =
        [A.take (A.length - (overlapScore shiftE diffE A B).2.1) ++
          blendRows (min (overlapScore shiftE diffE A B).2.1 42)
            (A.drop (A.length - min (overlapScore shiftE diffE A B).2.1 42))
            (B.take (min (overlapScore shiftE diffE A B).2.1 42)) ++
          B.drop (min (overlapScore shiftE diffE A B).2.1 42)] ∧
      (A.take (A.length - (overlapScore shiftE diffE A B).2.1) ++
          blendRows (min (overlapScore shiftE diffE A B).2.1 42)
            (A.drop (A.length - min (overlapScore shiftE diffE A B).2.1 42))
            (B.take (min (overlapScore shiftE diffE A B).2.1 42)) ++
          B.drop (min (overlapScore shiftE diffE A B).2.1 42)).length =
        A.length + B.length - (overlapScore shiftE diffE A B).2.1 ∧
      24 ≤ (overlapScore shiftE diffE A B).2.1 ∧
      (overlapScore shiftE diffE A B).2.1 + 2 ≤ min A.length B.length := by
  have hlay : resolveLayoutHint (some "full_scroll") sourceType none = "full_scroll" := rfl
  have hpos : 0 < (overlapScore shiftE diffE A B).1 :=
    lt_of_lt_of_le (effectiveOverlapThreshold_full_scroll_pos raw) hsc
  have hb := overlapScore_pos_bounds shiftE diffE A B hpos
  rw [alignWidth_self A B hw] at hb
  dsimp only at hb
  have hpair : stitchPair A B (some (overlapScore shiftE diffE A B).2.1) =
      A.take (A.length - (overlapScore shiftE diffE A B).2.1) ++
        blendRows (min (overlapScore shiftE diffE A B).2.1 42)
          (A.drop (A.length - min (overlapScore shiftE diffE A B).2.1 42))
          (B.take (min (overlapScore shiftE diffE A B).2.1 42)) ++
        B.drop (min (overlapScore shiftE diffE A B).2.1 42) := by
    unfold stitchPair
    rw [alignWidth_self A B hw]
    dsimp only
    rw [(by omega : min (overlapScore shiftE diffE A B).2.1 (min A.length B.length - 1) =
      (overlapScore shiftE diffE A B).2.1)]
    rw [if_neg (by omega)]
    rw [(by omega : max 10 (min (overlapScore shiftE diffE A B).2.1 42) =
      min (overlapScore shiftE diffE A B).2.1 42)]
    rw [if_pos (show (overlapScore shiftE diffE A B).2.1 < A.length by omega)]
    rw [if_pos (show min (overlapScore shiftE diffE A B).2.1 42 < B.length by omega)]
  refine ⟨?_, ?_, ?_, by omega, by omega⟩
  · unfold stitchPages
    rw [if_neg (by simp)]
    dsimp only
    rw [hf1, hlay]
    rw [if_neg (by simp), if_neg (by decide), if_neg (by simp)]
    rfl
  · unfold stitchPages
    rw [if_neg (by simp)]
    dsimp only
    rw [hf2, hlay]
    rw [if_neg (by simp), if_neg (by decide), if_neg (by simp)]
    show stitchScroll (overlapScore shiftE diffE)
      (effectiveOverlapThreshold raw "full_scroll") A [B] = _
    rw [stitchScroll, if_pos hsc, stitchScroll, hpair]
  · rw [List.length_append, List.length_append, blendRows_length, List.length_take,
      List.length_drop]
    omega

lemma stitch_witness_score_eval :
    effectiveOverlapThreshold 0 "full_scroll" ≤
      (overlapScore (fun _ _ => ((0 : ℚ), (1 : ℚ))) (fun _ _ _ => (0 : ℚ))
        (List.replicate 30 (List.replicate 3 (0 : ℚ)))
        (List.replicate 30 (List.replicate 3 (0 : ℚ)))).1 := by
  have heff : effectiveOverlapThreshold 0 "full_scroll" = 62/100 := by
    unfold effectiveOverlapThreshold
    rw [if_neg (by decide), if_pos rfl]
    norm_num [qmax, qmin]
  have hov : (overlapScore (fun _ _ => ((0 : ℚ), (1 : ℚ))) (fun _ _ _ => (0 : ℚ))
      (List.replicate 30 (List.replicate 3 (0 : ℚ)))
      (List.replicate 30 (List.replicate 3 (0 : ℚ)))).1 = 1 := by
    have himg : imgW (List.replicate 30 (List.replicate 3 (0 : ℚ))) = 3 := rfl
    norm_num [overlapScore, alignWidth, himg, overlapBand, overlapCandidates,
      bestOverlapFold, bestStep, overlapScoreValue, qmax, qmin, qabs, List.range',
      Int.toNat_ofNat]
  rw [heff, hov]
  norm_num

/-- Witness for `stitch_scroll_merge_spec` on two identical 30 × 3 white
frames with a perfectly confident zero-shift oracle and zero strip
difference: the overlap score is 1, above the effective threshold. -/
theorem stitch_scroll_merge_spec_witness :
    (effectiveOverlapThreshold 0 "full_scroll" ≤
        (overlapScore (fun _ _ => ((0 : ℚ), (1 : ℚ))) (fun _ _ _ => (0 : ℚ))
          (List.replicate 30 (List.replicate 3 (0 : ℚ)))
          (List.replicate 30 (List.replicate 3 (0 : ℚ)))).1) ∧
      stitchPages (fun l => l) (fun l => l)
          (overlapScore (fun _ _ => ((0 : ℚ), (1 : ℚ))) (fun _ _ _ => (0 : ℚ)))
          (some "full_scroll") none true 0
          [List.replicate 30 (List.replicate 3 (0 : ℚ))] =
        [List.replicate 30 (List.replicate 3 (0 : ℚ))] :=
  ⟨stitch_witness_score_eval,
    (stitch_scroll_merge_spec (fun l => l) (fun l => l)
      (fun _ _ => ((0 : ℚ), (1 : ℚ))) (fun _ _ _ => (0 : ℚ)) none 0
      (List.replicate 30 (List.replicate 3 (0 : ℚ)))
      (List.replicate 30 (List.replicate 3 (0 : ℚ)))
      rfl rfl rfl stitch_witness_score_eval).1⟩

/-! ## Sheet-region detection, manual mode (`detect_sheet_regions` in
`pipeline/detect.py`)

The automatic path (candidate generation, scoring, temporal smoothing) is
cv2-bound and enters as the oracle `autoO`; the manual branch is modelled
exactly.  Frame paths are abstract (`F`); region points are the integer
points of the corner-ordering section. -/

/-- One detection record (`{"frame_path", "roi", "score", "frame_index"}`). -/
structure DetectionRecord (F : Type) where
  frame_path : F
  roi : Option Quad
  score : ℚ
  frame_index : ℕ
deriving DecidableEq

/-- The fields of `DetectOptions` used by `detect_sheet_regions`. -/
structure DetectOptions where
  mode : String
  roi : Option Quad
  layout_hint : String
  prefer_bottom : Option Bool

/-- `detect_sheet_regions(frame_paths, options, ...)`: layout resolution
and logging happen first but only affect log output; in manual mode the
supplied ROI is corner-ordered once and emitted for every frame with
confidence 1.0 and `frame_index = len(detections)`; the automatic path is
the oracle `autoO`. -/
def detectSheetRegions (F : Type) (autoO : List F → List (DetectionRecord F))
    (frames : List F) (options : DetectOptions) :
    Except String (List (DetectionRecord F)) :=
  if options.mode = "manual" then
    match options.roi with
    | none => Except.error "manual mode requires roi"
    | some q =>
      Except.ok (frames.mapIdx (fun i p =>
        { frame_path := p, roi := some (orderPoints q), score := 1, frame_index := i }))
  else Except.ok (autoO frames)

/-- C5: in manual mode with a supplied ROI, every frame yields exactly one
record whose region is the corner-ordered input ROI with score 1.0 and
whose index is the frame position; the output is one record per frame and
is identical for any two automatic-path oracles (none of the automatic
candidate generation, scoring or smoothing contributes). -/
theorem detect_manual_mode_spec (F : Type) (autoO autoO' : List F → List (DetectionRecord F))
    (frames : List F) (options : DetectOptions) (q : Quad)
    (hm : options.mode = "manual") (hq : options.roi = some q) :
    detectSheetRegions F autoO frames options =
        Except.ok (frames.mapIdx (fun i p =>
          { frame_path := p, roi := some (orderPoints q), score := 1, frame_index := i })) ∧
      detectSheetRegions F autoO frames options = detectSheetRegions F autoO' frames options ∧
      ∀ recs, detectSheetRegions F autoO frames options = Except.ok recs →
        recs.length = frames.length ∧
        ∀ r ∈ recs, r.roi = some (orderPoints q) ∧ r.score = 1 := by
  have hout : detectSheetRegions F autoO frames options =
      Except.ok (frames.mapIdx (fun i p =>
        { frame_path := p, roi := some (orderPoints q), score := 1, frame_index := i })) := by
    unfold detectSheetRegions
    rw [if_pos hm, hq]
  have hout' : detectSheetRegions F autoO' frames options =
      Except.ok (frames.mapIdx (fun i p =>
        { frame_path := p, roi := some (orderPoints q), score := 1, frame_index := i })) := by
    unfold detectSheetRegions
    rw [if_pos hm, hq]
  refine ⟨hout, hout.trans hout'.symm, ?_⟩
  intro recs hrecs
  rw [hout] at hrecs
  obtain rfl : frames.mapIdx (fun i p =>
      ({ frame_path := p, roi := some (orderPoints q), score := 1, frame_index := i } :
        DetectionRecord F)) = recs := by
    injection hrecs
  constructor
  · simp
  · intro r hr
    rw [List.mapIdx_eq_enum_map] at hr
    simp only [List.mem_map] at hr
    obtain ⟨⟨i, p⟩, _, rfl⟩ := hr
    exact ⟨rfl, rfl⟩

/-- Witness for `detect_manual_mode_spec`: two frames, a concrete ROI. -/
theorem detect_manual_mode_spec_witness :
    (({ mode := "manual", roi := some ((0, 0), (10, 0), (10, 10), (0, 10)),
        layout_hint := "auto", prefer_bottom := none } : DetectOptions).mode = "manual") ∧
      detectSheetRegions ℕ (fun _ => []) [7, 8]
          { mode := "manual", roi := some ((0, 0), (10, 0), (10, 10), (0, 10)),
            layout_hint := "auto", prefer_bottom := none } =
        Except.ok ([7, 8].mapIdx (fun i p =>
          { frame_path := p,
            roi := some (orderPoints ((0, 0), (10, 0), (10, 10), (0, 10))),
            score := 1, frame_index := i })) :=
  ⟨rfl,
    (detect_manual_mode_spec ℕ (fun _ => []) (fun _ => []) [7, 8]
      { mode := "manual", roi := some ((0, 0), (10, 0), (10, 10), (0, 10)),
        layout_hint := "auto", prefer_bottom := none }
      ((0, 0), (10, 0), (10, 10), (0, 10)) rfl rfl).1⟩

/-! ## Frame extraction with hardware-acceleration fallback
(`_extract_with_ffmpeg` and `_hwaccel_mode_name` in `pipeline/extract.py`)

A subprocess attempt is represented by its observable outcome: the return
code, the stderr text (`text=True`, so always a string) and the sorted
`frame_*.png` files found after the run (the output directory is cleared
before each attempt, so each attempt's frames are its own).  The `run`
oracle maps a hardware-acceleration flag set to its outcome. -/

/-- The outcome of one `subprocess.run` of the transcoder. -/
structure FfmpegOutcome where
  returncode : ℤ
  stderr : String
  frames : List String
deriving DecidableEq

/-- `result.stderr.strip() if result.stderr else "unknown ffmpeg error"`. -/
def stderrOf (o : FfmpegOutcome) : String :=
  if o.stderr ≠ "" then o.stderr.trim else "unknown ffmpeg error"

/-- The element after the first `"-hwaccel"` in the flag list
(`flags[flags.index("-hwaccel") + 1]`), if any. -/
def nextAfterHwaccel : List String → Option String
  | [] => none
  | x :: rest => if x = "-hwaccel" then rest.head? else nextAfterHwaccel rest

/-- `_hwaccel_mode_name(flags)`. -/
def hwaccelModeName (flags : List String) : String :=
  if flags = [] then "cpu"
  else if "-hwaccel" ∈ flags then
    match nextAfterHwaccel flags with
    | some m => m
    | none => "gpu"
  else "gpu"

/-- `attempt_errors[-3:]`: the last (at most) `n` entries. -/
def lastN {α : Type} (n : ℕ) (l : List α) : List α := l.drop (l.length - n)

/-- The attempt-error entry recorded for a failed flag set. -/
def attemptEntry (run : List String → FfmpegOutcome) (flags : List String) : String :=
  hwaccelModeName flags ++ ": " ++ stderrOf (run flags)

/-- The final `RuntimeError` message of `_extract_with_ffmpeg`. -/
def ffmpegFailureMsg (errs : List String) : String :=
  "ffmpeg failed after gpu/cpu fallback: " ++
    (if errs = [] then "no ffmpeg attempts" else String.intercalate " | " (lastN 3 errs))

/-- The `for hw_flags in hwaccel_flag_sets` loop of `_extract_with_ffmpeg`,
carrying the accumulated `attempt_errors`. -/
def extractLoop (run : List String → FfmpegOutcome) :
    List (List String) → List String → Except String (List String × String)
  | [], errs => Except.error (ffmpegFailureMsg errs)
  | hw :: rest, errs =>
    if (run hw).returncode = 0 ∧ (run hw).frames ≠ [] then
      Except.ok ((run hw).frames, hwaccelModeName hw)
    else extractLoop run rest (errs ++ [attemptEntry run hw])

/-- `_extract_with_ffmpeg(...)`: try `accel.ffmpeg_hwaccel_flags or [[]]`
in order; on success return the produced frames and commit the mode name;
on exhaustion raise with the last three recorded stderr entries joined. -/
def extractWithFfmpeg (run : List String → FfmpegOutcome)
    (flagSets : List (List String)) : Except String (List String × String) :=
  extractLoop run (if flagSets = [] then [[]] else flagSets) []

lemma extractLoop_all_bad (run : List String → FfmpegOutcome) :
    ∀ (sets : List (List String)) (errs : List String),
      (∀ s ∈ sets, ¬((run s).returncode = 0 ∧ (run s).frames ≠ [])) →
      extractLoop run sets errs =
        Except.error (ffmpegFailureMsg (errs ++ sets.map (attemptEntry run))) := by
  intro sets
  induction sets with
  | nil => intro errs _; simp [extractLoop]
  | cons hw rest ih =>
    intro errs hbad
    rw [extractLoop, if_neg (hbad hw (by simp))]
    rw [ih _ (fun s hs => hbad s (by simp [hs]))]
    simp

lemma extractLoop_first_good (run : List String → FfmpegOutcome) :
    ∀ (pre : List (List String)) (hw : List String) (post : List (List String))
      (errs : List String),
      (∀ s ∈ pre, ¬((run s).returncode = 0 ∧ (run s).frames ≠ [])) →
      (run hw).returncode = 0 ∧ (run hw).frames ≠ [] →
      extractLoop run (pre ++ hw :: post) errs =
        Except.ok ((run hw).frames, hwaccelModeName hw) := by
  intro pre
  induction pre with
  | nil =>
    intro hw post errs _ hgood
    rw [List.nil_append, extractLoop, if_pos hgood]
  | cons s rest ih =>
    intro hw post errs hbad hgood
    rw [List.cons_append, extractLoop, if_neg (hbad s (by simp))]
    exact ih hw post _ (fun x hx => hbad x (by simp [hx])) hgood

/-- C8: frame extraction commits a mode exactly when the transcoder exits
successfully and produced at least one frame: the first flag set whose
attempt satisfies both is committed (its frames returned, its mode name
recorded), every earlier failing attempt records its stderr entry, and
when every flag set fails the raised error message is the last three
recorded entries joined with `" | "`. -/
theorem extract_ffmpeg_fallback (run : List String → FfmpegOutcome) :
    (∀ (pre : List (List String)) (hw : List String) (post : List (List String)),
        (∀ s ∈ pre, ¬((run s).returncode = 0 ∧ (run s).frames ≠ [])) →
        (run hw).returncode = 0 ∧ (run hw).frames ≠ [] →
        extractWithFfmpeg run (pre ++ hw :: post) =
          Except.ok ((run hw).frames, hwaccelModeName hw)) ∧
      (∀ sets : List (List String),
        (∀ s ∈ (if sets = [] then [[]] else sets),
          ¬((run s).returncode = 0 ∧ (run s).frames ≠ [])) →
        extractWithFfmpeg run sets =
          Except.error ("ffmpeg failed after gpu/cpu fallback: " ++
            String.intercalate " | "
              (lastN 3 ((if sets = [] then [[]] else sets).map (attemptEntry run))))) := by
  constructor
  · intro pre hw post hbad hgood
    unfold extractWithFfmpeg
    rw [if_neg (by simp)]
    exact extractLoop_first_good run pre hw post [] hbad hgood
  · intro sets hbad
    unfold extractWithFfmpeg
    rw [extractLoop_all_bad run _ [] hbad, List.nil_append]
    unfold ffmpegFailureMsg
    rw [if_neg (by
      intro hnil
      rcases List.map_eq_nil_iff.mp hnil with h
      rcases sets with _ | ⟨a, b⟩
      · simp at h
      · simp at hnil)]

/-- Witness for `extract_ffmpeg_fallback`: a CUDA attempt that exits with
code 1 followed by a CPU attempt that succeeds with one frame. -/
theorem extract_ffmpeg_fallback_witness :
    (∀ s ∈ [["-hwaccel", "cuda"]],
        ¬(((fun f => if f = ([] : List String) then
              ({ returncode := 0, stderr := "", frames := ["frame_000001.png"] } : FfmpegOutcome)
            else { returncode := 1, stderr := "boom", frames := [] }) s).returncode = 0 ∧
          ((fun f => if f = ([] : List String) then
              ({ returncode := 0, stderr := "", frames := ["frame_000001.png"] } : FfmpegOutcome)
            else { returncode := 1, stderr := "boom", frames := [] }) s).frames ≠ [])) ∧
      extractWithFfmpeg
          (fun f => if f = ([] : List String) then
            ({ returncode := 0, stderr := "", frames := ["frame_000001.png"] } : FfmpegOutcome)
          else { returncode := 1, stderr := "boom", frames := [] })
          ([["-hwaccel", "cuda"]] ++ [] :: []) =
        Except.ok (["frame_000001.png"], "cpu") :=
  ⟨by decide,
    (extract_ffmpeg_fallback
      (fun f => if f = ([] : List String) then
        ({ returncode := 0, stderr := "", frames := ["frame_000001.png"] } : FfmpegOutcome)
      else { returncode := 1, stderr := "boom", frames := [] })).1
      [["-hwaccel", "cuda"]] [] [] (by decide) (by decide)⟩

/-! ## Job status and progress over a job's lifetime
(`JobStore.set_state` in `job_store.py`; `_run_job`, `review_export` and
`crop_capture` in `main.py`)

A job's observable store state is its status and progress.  `_run_job`
first reports `running` at progress 0.01, then a subsequence of the fixed
increasing mid-pipeline progress reports (optional stages may be skipped,
and an exception can cut the sequence short at any point), and finally
either `done` or `error` at progress 1.0.  After the run, `review_export`
and `crop_capture` may fire any number of times; both reject (HTTP 409,
no store write) while the job is queued or running, `review_export` then
sets `done` at 1.0 and `crop_capture` rewrites the job's own status and
progress back. -/

/-- The `JobStatus` enum of `job_store.py`. -/
inductive JobStatus where
  | queued
  | running
  | done
  | error
deriving DecidableEq, Repr

/-- The status/progress portion of a `Job` record. -/
structure JobState where
  status : JobStatus
  progress : ℚ

/-- `max(0.0, min(1.0, progress))` in `JobStore.set_state`. -/
def clamp01 (p : ℚ) : ℚ := qmax 0 (qmin 1 p)

/-- `JobStore.set_state(job_id, status, progress, ...)` restricted to the
status and progress fields (every call modelled here passes a progress). -/
def setState (st : JobStatus) (p : ℚ) : JobState :=
  { status := st, progress := clamp01 p }

/-- One observable store update on a single job: a `set_state` issued by
`_run_job`, or one of the two post-job endpoints reaching their final
`set_state`. -/
inductive JobUpdate where
  | runStep (st : JobStatus) (p : ℚ)
  | reviewExportDone
  | cropCapture

/-- The effect of one update on the job state.  `review_export` and
`crop_capture` raise 409 while the job is queued or running, leaving the
state unchanged; otherwise `review_export` ends in
`set_state(job_id, DONE, 1.0, ...)` and `crop_capture` in
`set_state(job_id, job.status, job.progress, ...)`. -/
def applyUpdate (s : JobState) : JobUpdate → JobState
  | .runStep st p => setState st p
  | .reviewExportDone =>
      if s.status = JobStatus.queued ∨ s.status = JobStatus.running then s
      else setState JobStatus.done 1
  | .cropCapture =>
      if s.status = JobStatus.queued ∨ s.status = JobStatus.running then s
      else setState s.status s.progress

/-- A freshly created job: `status=QUEUED, progress=0.0`. -/
def initialJob : JobState := { status := JobStatus.queued, progress := 0 }

/-- The successive store states along a trace of updates, starting from a
fresh job. -/
def jobStateList (trace : List JobUpdate) : List JobState :=
  List.scanl applyUpdate initialJob trace

/-- The mid-pipeline progress reports of `_run_job`, in program order:
0.2, 0.3, 0.38, 0.45, 0.68, 0.82, 0.92 (all with status RUNNING). -/
def midProgress : List ℚ :=
  [mkRat 2 10, mkRat 3 10, mkRat 38 100, mkRat 45 100, mkRat 68 100,
   mkRat 82 100, mkRat 92 100]

/-- The two possible final `set_state` calls of `_run_job`: DONE at 1.0 on
success, ERROR at 1.0 on exception. -/
def finalUpdates : List JobUpdate :=
  [JobUpdate.runStep JobStatus.done 1, JobUpdate.runStep JobStatus.error 1]

/-- An update issued by a post-job endpoint. -/
def isPostOp (u : JobUpdate) : Prop :=
  u = JobUpdate.reviewExportDone ∨ u = JobUpdate.cropCapture

/-- The traces of store updates the orchestrator and the post-job
endpoints can perform on one job: the initial
`set_state(RUNNING, 0.01, ...)`, a subsequence of the mid-pipeline
reports, one final DONE/ERROR report, then any sequence of post-job
endpoint completions. -/
def ValidTrace (trace : List JobUpdate) : Prop :=
  ∃ (mids : List ℚ) (fn : JobUpdate) (posts : List JobUpdate),
    mids.Sublist midProgress ∧ fn ∈ finalUpdates ∧ (∀ u ∈ posts, isPostOp u) ∧
    trace = JobUpdate.runStep JobStatus.running (mkRat 1 100) ::
      (mids.map (JobUpdate.runStep JobStatus.running) ++ fn :: posts)

/-- The transition DAG claimed by the spec: queued → running → {done,
error}, with staying in place allowed. -/
def dagOk : JobStatus → JobStatus → Bool
  | .queued, .queued => true
  | .queued, .running => true
  | .running, .running => true
  | .running, .done => true
  | .running, .error => true
  | .done, .done => true
  | .error, .error => true
  | _, _ => false

/-- The transition relation actually realised: `review_export` on a job
that ended in ERROR additionally moves it to DONE. -/
def dagOkAmended (a b : JobStatus) : Bool :=
  dagOk a b || (a = JobStatus.error && b = JobStatus.done)

/-- The amended invariant along a trace from a fresh job: consecutive
statuses follow the amended DAG, and progress stays in [0,1] and never
decreases. -/
def GoodFrom (s : JobState) (tr : List JobUpdate) : Prop :=
  List.Chain' (fun a b => dagOkAmended a b = true)
      ((List.scanl applyUpdate s tr).map JobState.status) ∧
    (∀ t ∈ List.scanl applyUpdate s tr, 0 ≤ t.progress ∧ t.progress ≤ 1) ∧
    List.Chain' (fun a b => a.progress ≤ b.progress) (List.scanl applyUpdate s tr)

lemma clamp01_of_bounds {p : ℚ} (h0 : 0 ≤ p) (h1 : p ≤ 1) : clamp01 p = p := by
  unfold clamp01
  rw [qmax_eq, qmin_eq, min_eq_right h1, max_eq_right h0]

lemma applyUpdate_runStep (s : JobState) (st : JobStatus) (p : ℚ) :
    applyUpdate s (JobUpdate.runStep st p) = setState st p := rfl

lemma applyUpdate_review (s : JobState) :
    applyUpdate s JobUpdate.reviewExportDone =
      if s.status = JobStatus.queued ∨ s.status = JobStatus.running then s
      else setState JobStatus.done 1 := rfl

lemma applyUpdate_crop (s : JobState) :
    applyUpdate s JobUpdate.cropCapture =
      if s.status = JobStatus.queued ∨ s.status = JobStatus.running then s
      else setState s.status s.progress := rfl

lemma scanl_update_head (s : JobState) (tr : List JobUpdate) :
    ∃ rest, List.scanl applyUpdate s tr = s :: rest := by
  cases tr with
  | nil => exact ⟨[], rfl⟩
  | cons u l => exact ⟨_, rfl⟩

lemma goodFrom_nil {s : JobState} (hb0 : 0 ≤ s.progress) (hb1 : s.progress ≤ 1) :
    GoodFrom s [] := by
  refine ⟨by simp, ?_, by simp⟩
  intro t ht
  simp only [List.scanl_nil, List.mem_singleton] at ht
  subst ht
  exact ⟨hb0, hb1⟩

lemma goodFrom_cons {s : JobState} {u : JobUpdate} {tr : List JobUpdate}
    (hdag : dagOkAmended s.status (applyUpdate s u).status = true)
    (hprog : s.progress ≤ (applyUpdate s u).progress)
    (hb0 : 0 ≤ s.progress) (hb1 : s.progress ≤ 1)
    (hrest : GoodFrom (applyUpdate s u) tr) :
    GoodFrom s (u :: tr) := by
  obtain ⟨h1, h2, h3⟩ := hrest
  obtain ⟨rest, hr⟩ := scanl_update_head (applyUpdate s u) tr
  unfold GoodFrom
  have hsc : List.scanl applyUpdate s (u :: tr) =
      s :: List.scanl applyUpdate (applyUpdate s u) tr := rfl
  rw [hsc, hr]
  rw [hr] at h1 h2 h3
  refine ⟨?_, ?_, ?_⟩
  · rw [List.map_cons, List.map_cons, List.chain'_cons]
    rw [List.map_cons] at h1
    exact ⟨hdag, h1⟩
  · intro t ht
    rcases List.mem_cons.mp ht with h | h
    · subst h; exact ⟨hb0, hb1⟩
    · exact h2 t h
  · rw [List.chain'_cons]
    exact ⟨hprog, h3⟩

lemma goodFrom_posts : ∀ (posts : List JobUpdate), (∀ u ∈ posts, isPostOp u) →
    ∀ s : JobState, (s.status = JobStatus.done ∨ s.status = JobStatus.error) →
    s.progress = 1 → GoodFrom s posts := by
  intro posts
  induction posts with
  | nil =>
    intro _ s _ hp
    exact goodFrom_nil (by rw [hp]; norm_num) (by rw [hp])
  | cons u rest ih =>
    intro hall s hs hp
    have hguard : ¬(s.status = JobStatus.queued ∨ s.status = JobStatus.running) := by
      rcases hs with h | h <;> rw [h] <;> simp
    have hset1 : setState JobStatus.done 1 = ⟨JobStatus.done, 1⟩ := by
      unfold setState
      rw [clamp01_of_bounds (by norm_num) le_rfl]
    rcases hall u (by simp) with h | h <;> subst h
    · have happ : applyUpdate s JobUpdate.reviewExportDone = ⟨JobStatus.done, 1⟩ := by
        rw [applyUpdate_review, if_neg hguard, hset1]
      refine goodFrom_cons ?_ ?_ (by rw [hp]; norm_num) (by rw [hp]) ?_
      · rw [happ]
        rcases hs with h | h <;> rw [h] <;> rfl
      · rw [happ, hp]
      · rw [happ]
        exact ih (fun x hx => hall x (by simp [hx])) _ (Or.inl rfl) rfl
    · have happ : applyUpdate s JobUpdate.cropCapture = ⟨s.status, 1⟩ := by
        rw [applyUpdate_crop, if_neg hguard]
        unfold setState
        rw [hp, clamp01_of_bounds (by norm_num) le_rfl]
      refine goodFrom_cons ?_ ?_ (by rw [hp]; norm_num) (by rw [hp]) ?_
      · rw [happ]
        rcases hs with h | h <;> rw [h] <;> rfl
      · rw [happ, hp]
      · rw [happ]
        exact ih (fun x hx => hall x (by simp [hx])) _ hs rfl

lemma goodFrom_run : ∀ (mids : List ℚ) (p0 : ℚ), 0 ≤ p0 → p0 ≤ 1 →
    (∀ x ∈ mids, p0 ≤ x ∧ x ≤ 1) → mids.Pairwise (· ≤ ·) →
    ∀ fn ∈ finalUpdates, ∀ posts : List JobUpdate, (∀ u ∈ posts, isPostOp u) →
    GoodFrom ⟨JobStatus.running, p0⟩
      (mids.map (JobUpdate.runStep JobStatus.running) ++ fn :: posts) := by
  intro mids
  induction mids with
  | nil =>
    intro p0 hp0 hp1 _ _ fn hfn posts hposts
    simp only [finalUpdates, List.mem_cons, List.not_mem_nil, or_false] at hfn
    have key : ∀ st : JobStatus, st = JobStatus.done ∨ st = JobStatus.error →
        GoodFrom ⟨JobStatus.running, p0⟩ (JobUpdate.runStep st 1 :: posts) := by
      intro st hst
      have happ : applyUpdate ⟨JobStatus.running, p0⟩ (JobUpdate.runStep st 1) =
          ⟨st, 1⟩ := by
        rw [applyUpdate_runStep]
        unfold setState
        rw [clamp01_of_bounds (by norm_num) le_rfl]
      refine goodFrom_cons ?_ ?_ hp0 hp1 ?_
      · rw [happ]
        rcases hst with h | h <;> rw [h] <;> rfl
      · rw [happ]; exact hp1
      · rw [happ]
        exact goodFrom_posts posts hposts _ hst rfl
    rcases hfn with h | h <;> subst h
    · exact key JobStatus.done (Or.inl rfl)
    · exact key JobStatus.error (Or.inr rfl)
  | cons m ms ih =>
    intro p0 hp0 hp1 hm hpw fn hfn posts hposts
    have hm0 : p0 ≤ m := (hm m (by simp)).1
    have hm1 : m ≤ 1 := (hm m (by simp)).2
    have happ : applyUpdate ⟨JobStatus.running, p0⟩
        (JobUpdate.runStep JobStatus.running m) = ⟨JobStatus.running, m⟩ := by
      rw [applyUpdate_runStep]
      unfold setState
      rw [clamp01_of_bounds (le_trans hp0 hm0) hm1]
    rw [List.map_cons, List.cons_append]
    refine goodFrom_cons ?_ ?_ hp0 hp1 ?_
    · rw [happ]; rfl
    · rw [happ]; exact hm0
    · rw [happ]
      rcases List.pairwise_cons.mp hpw with ⟨hhead, htail⟩
      exact ih m (le_trans hp0 hm0) hm1
        (fun x hx => ⟨hhead x hx, (hm x (by simp [hx])).2⟩) htail fn hfn posts hposts

/-- C6 (counterexample to the claimed DAG): a job whose run ends in ERROR
and is then finalised by `review_export` transitions error → done, an edge
the claimed DAG queued → running → {done, error} forbids. -/
theorem job_updates_claim_counterexample :
    ValidTrace [JobUpdate.runStep JobStatus.running (mkRat 1 100),
      JobUpdate.runStep JobStatus.error 1, JobUpdate.reviewExportDone] ∧
    ¬ List.Chain' (fun a b => dagOk a b = true)
      ((jobStateList [JobUpdate.runStep JobStatus.running (mkRat 1 100),
        JobUpdate.runStep JobStatus.error 1,
        JobUpdate.reviewExportDone]).map JobState.status) := by
  constructor
  · exact ⟨[], JobUpdate.runStep JobStatus.error 1, [JobUpdate.reviewExportDone],
      List.nil_sublist _, by simp [finalUpdates], by simp [isPostOp], rfl⟩
  · intro hch
    rw [show (jobStateList [JobUpdate.runStep JobStatus.running (mkRat 1 100),
        JobUpdate.runStep JobStatus.error 1,
        JobUpdate.reviewExportDone]).map JobState.status =
        [JobStatus.queued, JobStatus.running, JobStatus.error, JobStatus.done]
        from rfl] at hch
    rcases List.chain'_cons.mp hch with ⟨-, hch⟩
    rcases List.chain'_cons.mp hch with ⟨-, hch⟩
    rcases List.chain'_cons.mp hch with ⟨hbad, -⟩
    exact absurd hbad (by decide)

/-- C6 (amended): over every valid trace of store updates on one job, the
statuses follow the DAG queued → running → {done, error} EXTENDED with the
edge error → done (taken when `review_export` finalises a job whose run
failed), and the progress stays within [0,1] and never decreases. -/
theorem job_updates_amended (trace : List JobUpdate) (h : ValidTrace trace) :
    List.Chain' (fun a b => dagOkAmended a b = true)
        ((jobStateList trace).map JobState.status) ∧
      (∀ s ∈ jobStateList trace, 0 ≤ s.progress ∧ s.progress ≤ 1) ∧
      List.Chain' (fun a b => a.progress ≤ b.progress) (jobStateList trace) := by
  obtain ⟨mids, fn, posts, hsub, hfn, hposts, htr⟩ := h
  subst htr
  have hall : ∀ x ∈ midProgress, mkRat 1 100 ≤ x ∧ x ≤ 1 := by decide
  have hpwAll : midProgress.Pairwise (· ≤ ·) := by decide
  have h001a : (0 : ℚ) ≤ mkRat 1 100 := by decide
  have h001b : mkRat 1 100 ≤ 1 := by decide
  have happ : applyUpdate initialJob
      (JobUpdate.runStep JobStatus.running (mkRat 1 100)) =
      ⟨JobStatus.running, mkRat 1 100⟩ := by
    rw [applyUpdate_runStep]
    unfold setState
    rw [clamp01_of_bounds h001a h001b]
  have hgood : GoodFrom initialJob
      (JobUpdate.runStep JobStatus.running (mkRat 1 100) ::
        (mids.map (JobUpdate.runStep JobStatus.running) ++ fn :: posts)) := by
    refine goodFrom_cons ?_ ?_ le_rfl (by decide) ?_
    · rw [happ]; rfl
    · rw [happ]; exact h001a
    · rw [happ]
      exact goodFrom_run mids (mkRat 1 100) h001a h001b
        (fun x hx => hall x (hsub.subset hx)) (hpwAll.sublist hsub) fn hfn posts hposts
  exact hgood

/-- Witness for `job_updates_amended`: the trace of a successful run with
no optional stages followed by one capture crop. -/
theorem job_updates_amended_witness :
    ValidTrace [JobUpdate.runStep JobStatus.running (mkRat 1 100),
      JobUpdate.runStep JobStatus.done 1, JobUpdate.cropCapture] ∧
    (List.Chain' (fun a b => dagOkAmended a b = true)
        ((jobStateList [JobUpdate.runStep JobStatus.running (mkRat 1 100),
          JobUpdate.runStep JobStatus.done 1,
          JobUpdate.cropCapture]).map JobState.status) ∧
      (∀ s ∈ jobStateList [JobUpdate.runStep JobStatus.running (mkRat 1 100),
          JobUpdate.runStep JobStatus.done 1, JobUpdate.cropCapture],
        0 ≤ s.progress ∧ s.progress ≤ 1) ∧
      List.Chain' (fun a b => a.progress ≤ b.progress)
        (jobStateList [JobUpdate.runStep JobStatus.running (mkRat 1 100),
          JobUpdate.runStep JobStatus.done 1, JobUpdate.cropCapture])) := by
  have vt : ValidTrace [JobUpdate.runStep JobStatus.running (mkRat 1 100),
      JobUpdate.runStep JobStatus.done 1, JobUpdate.cropCapture] :=
    ⟨[], JobUpdate.runStep JobStatus.done 1, [JobUpdate.cropCapture],
      List.nil_sublist _, by simp [finalUpdates], by simp [isPostOp], rfl⟩
  exact ⟨vt, job_updates_amended _ vt⟩

/-! ## Cache clearing (`clear_cache`, `_cache_usage_summary` in `main.py`)

A top-level artifact-root entry is represented by its observable effect on
the loop body: its name, the byte total `_path_size_bytes` reports for it,
and whether `_remove_path` raises an `OSError` (with its text).  The
`entries` list is `sorted(jobs_root.iterdir(), key=lambda item: item.name)`,
i.e. already in name order.  The `reclaimed_human` response field is the
fixed human formatting of `reclaimed_bytes` and is not modelled.  Jobs are
represented by their id and status. -/

/-- One top-level entry of the artifact root as seen by the clearing loop. -/
structure CacheEntry where
  name : String
  size : ℤ
  removeError : Option String
deriving DecidableEq

/-- Modelled from the spec: `JobStore.active_job_ids()` — the ids of jobs
currently in {queued, running} ("Cache-clear is rejected with a CONFLICT
condition while a job is in {queued, running}"; "reject while any job
running"). -/
def activeJobIds (jobs : List (String × JobStatus)) : List String :=
  (jobs.filter (fun j => j.2 == JobStatus.queued || j.2 == JobStatus.running)).map
    Prod.fst

/-- Modelled from the spec: `JobStore.clear_all()` — drop every job from the
store and return how many were removed ("delete artifact-root children and
all jobs"). -/
def clearAll (jobs : List (String × JobStatus)) : ℕ × List (String × JobStatus) :=
  (jobs.length, [])

/-- The body of the `for child in sorted(jobs_root.iterdir(), ...)` loop:
add the entry's size to `reclaimed_bytes` (before the removal attempt),
then either count it as cleared or append `f"{child.name}: {exc}"` to
`skipped_paths`. -/
def clearEntriesStep (acc : ℤ × ℕ × List String) (e : CacheEntry) :
    ℤ × ℕ × List String :=
  match e.removeError with
  | none => (acc.1 + e.size, acc.2.1 + 1, acc.2.2)
  | some err => (acc.1 + e.size, acc.2.1, acc.2.2 ++ [e.name ++ ": " ++ err])

/-- The whole clearing loop: `(reclaimed_bytes, cleared_paths, skipped_paths)`. -/
def clearEntries (entries : List CacheEntry) : ℤ × ℕ × List String :=
  entries.foldl clearEntriesStep (0, 0, [])

/-- The `CacheClearResponse` fields driven by the store and the loop. -/
structure CacheClearResponse where
  cleared_paths : ℕ
  cleared_jobs : ℕ
  reclaimed_bytes : ℤ
  skipped_paths : List String
deriving DecidableEq

/-- `_cache_usage_summary()`: the count of top-level entries and
`int(max(0, total_bytes))`. -/
def cacheUsageSummary (entries : List CacheEntry) : ℕ × ℤ :=
  (entries.length, max 0 (entries.map CacheEntry.size).sum)

/-- `clear_cache()`: a 409 conflict (leaving jobs and entries untouched)
while any job is active, otherwise the clearing loop runs over every entry,
the store is emptied, and the response is returned; the entries whose
removal failed remain on disk. -/
def clearCache (jobs : List (String × JobStatus)) (entries : List CacheEntry) :
    Except String CacheClearResponse × List (String × JobStatus) × List CacheEntry :=
  if activeJobIds jobs ≠ [] then
    (Except.error "cache clear is blocked while jobs are running", jobs, entries)
  else
    ((Except.ok
        { cleared_paths := (clearEntries entries).2.1
          cleared_jobs := (clearAll jobs).1
          reclaimed_bytes := max 0 (clearEntries entries).1
          skipped_paths := (clearEntries entries).2.2 },
      (clearAll jobs).2,
      entries.filter (fun e => e.removeError.isSome)))

lemma clearEntries_foldl (entries : List CacheEntry) : ∀ acc : ℤ × ℕ × List String,
    entries.foldl clearEntriesStep acc =
      (acc.1 + (entries.map CacheEntry.size).sum,
       acc.2.1 + (entries.filter (fun e => e.removeError.isNone)).length,
       acc.2.2 ++ entries.filterMap
         (fun e => e.removeError.map (fun err => e.name ++ ": " ++ err))) := by
  induction entries with
  | nil => intro acc; simp
  | cons e rest ih =>
    intro acc
    rw [List.foldl_cons, ih]
    cases he : e.removeError with
    | none =>
      simp only [clearEntriesStep, he, Prod.mk.injEq]
      refine ⟨?_, ?_, ?_⟩
      · simp only [List.map_cons, List.sum_cons]
        omega
      · simp [List.filter_cons, he] <;> omega
      · simp [List.filterMap_cons, he]
    | some err =>
      simp only [clearEntriesStep, he, Prod.mk.injEq]
      refine ⟨?_, ?_, ?_⟩
      · simp only [List.map_cons, List.sum_cons]
        omega
      · simp [List.filter_cons, he]
      · simp [List.filterMap_cons, he]

lemma clearEntries_eq (entries : List CacheEntry) :
    clearEntries entries =
      ((entries.map CacheEntry.size).sum,
       (entries.filter (fun e => e.removeError.isNone)).length,
       entries.filterMap
         (fun e => e.removeError.map (fun err => e.name ++ ": " ++ err))) := by
  unfold clearEntries
  rw [clearEntries_foldl]
  simp

/-- C7: `clear_cache` returns the 409 conflict and mutates nothing whenever
some job is queued or running; otherwise it empties the job store, attempts
to delete every top-level entry (only those whose removal raised remain),
and the response carries the count of entries cleared, the count of jobs
dropped, a skip reason for every entry that could not be removed, and a
bytes-reclaimed total equal to the pre-call cache-usage total. -/
theorem clear_cache_spec (jobs : List (String × JobStatus))
    (entries : List CacheEntry) :
    (activeJobIds jobs ≠ [] →
      clearCache jobs entries =
        (Except.error "cache clear is blocked while jobs are running",
          jobs, entries)) ∧
    (activeJobIds jobs = [] →
      clearCache jobs entries =
        (Except.ok
          { cleared_paths := (entries.filter (fun e => e.removeError.isNone)).length
            cleared_jobs := jobs.length
            reclaimed_bytes := (cacheUsageSummary entries).2
            skipped_paths := entries.filterMap
              (fun e => e.removeError.map (fun err => e.name ++ ": " ++ err)) },
          [], entries.filter (fun e => e.removeError.isSome))) := by
  constructor
  · intro h
    unfold clearCache
    rw [if_pos h]
  · intro h
    unfold clearCache
    rw [if_neg (by simp [h])]
    rw [clearEntries_eq]
    rfl

/-- Witness for `clear_cache_spec`: no active job, one removable entry of
100 bytes and one entry whose removal raises `busy`. -/
theorem clear_cache_spec_witness :
    activeJobIds [("a", JobStatus.done)] = [] ∧
    clearCache [("a", JobStatus.done)]
        [⟨"j1", 100, none⟩, ⟨"j2", 50, some "busy"⟩] =
      (Except.ok
        { cleared_paths := ([⟨"j1", 100, none⟩, ⟨"j2", 50, some "busy"⟩].filter
            (fun e : CacheEntry => e.removeError.isNone)).length
          cleared_jobs := [("a", JobStatus.done)].length
          reclaimed_bytes :=
            (cacheUsageSummary [⟨"j1", 100, none⟩, ⟨"j2", 50, some "busy"⟩]).2
          skipped_paths := [⟨"j1", 100, none⟩, ⟨"j2", 50, some "busy"⟩].filterMap
            (fun e : CacheEntry =>
              e.removeError.map (fun err => e.name ++ ": " ++ err)) },
        [], [⟨"j1", 100, none⟩, ⟨"j2", 50, some "busy"⟩].filter
          (fun e : CacheEntry => e.removeError.isSome)) :=
  ⟨rfl,
    (clear_cache_spec [("a", JobStatus.done)]
        [⟨"j1", 100, none⟩, ⟨"j2", 50, some "busy"⟩]).2 rfl⟩

/-! ## Capture cropping
(`crop_capture` and `_resolve_capture_path_for_job` in `main.py`)

Resolved filesystem paths are modelled as component lists (the output of
`Path.resolve()`, an oracle of the filesystem); `resolved.relative_to(root)`
succeeds exactly when the root's components are a prefix of the resolved
ones, and `path.name` is the last component.  `resolved.exists() and
resolved.is_file()` is a filesystem oracle Bool.  The image read by
`cv2.imread` is a row list of an opaque pixel type; its reported width `w`
is tied to the rows by a rectangularity hypothesis.  Python `round()`
(round-half-to-even on floats) is `pyRound` on ℚ; ℚ has no NaN, so the NaN
guard is vacuous and not modelled.  Writing the cropped file back is
modelled by returning the cropped rows. -/

/-- The index of the last occurrence of `c`, if any. -/
def lastIdxOf (c : Char) (l : List Char) : Option ℕ :=
  (l.foldl (fun (acc : Option ℕ × ℕ) ch =>
    (if ch = c then some acc.2 else acc.1, acc.2 + 1)) (none, 0)).1

/-- `PurePath.suffix` of a final path component: the part from the last
dot on, empty when the dot is absent, leading or trailing. -/
def pathSuffix (name : String) : String :=
  match lastIdxOf '.' name.toList with
  | none => ""
  | some i =>
    if 0 < i ∧ i + 1 < name.toList.length then String.mk (name.toList.drop i)
    else ""

/-- `str.lower()` on a suffix. -/
def lowerStr (s : String) : String := String.mk (s.toList.map Char.toLower)

/-- The accepted capture extensions `{".png", ".jpg", ".jpeg"}`. -/
def imageSuffixes : List String := [".png", ".jpg", ".jpeg"]

/-- `_resolve_capture_path_for_job`: containment in the job's artifact
tree, then existence (when `must_exist`), then the extension check. -/
def resolveCapturePathForJob (artifactRoot resolved : List String)
    (existsAndIsFile mustExist : Bool) (rawPath : String) :
    Except String (List String) :=
  if artifactRoot.isPrefixOf resolved then
    if mustExist && !existsAndIsFile then
      Except.error ("capture file not found: " ++ rawPath)
    else if lowerStr (pathSuffix ((resolved.getLast?).getD "")) ∈ imageSuffixes then
      Except.ok resolved
    else Except.error ("unsupported capture format: " ++ rawPath)
  else Except.error ("capture path must be inside this job directory: " ++ rawPath)

/-- Python `round()`: round half to even. -/
def pyRound (q : ℚ) : ℤ :=
  if q - ⌊q⌋ < 1/2 then ⌊q⌋
  else if 1/2 < q - ⌊q⌋ then ⌊q⌋ + 1
  else if ⌊q⌋ % 2 = 0 then ⌊q⌋ else ⌊q⌋ + 1

/-- Python `min(list)` (the empty case cannot arise: the roi has 4 points). -/
def qlistMin : List ℚ → ℚ
  | [] => 0
  | a :: rest => rest.foldl qmin a

/-- Python `max(list)`. -/
def qlistMax : List ℚ → ℚ
  | [] => 0
  | a :: rest => rest.foldl qmax a

/-- `[max(0.0, min(float(bound), v)) for v in vals]`. -/
def clipCoords (bound : ℕ) (vals : List ℚ) : List ℚ :=
  vals.map (fun v => qmax 0 (qmin (bound : ℚ) v))

/-- `int(round(min(clipped)))`. -/
def bboxLo (bound : ℕ) (vals : List ℚ) : ℤ := pyRound (qlistMin (clipCoords bound vals))

/-- `int(round(max(clipped)))`. -/
def bboxHi (bound : ℕ) (vals : List ℚ) : ℤ := pyRound (qlistMax (clipCoords bound vals))

/-- `image[y1:y2, x1:x2]`. -/
def cropRegion (P : Type) (image : List (List P)) (x1 y1 x2 y2 : ℤ) :
    List (List P) :=
  ((image.drop y1.toNat).take (y2 - y1).toNat).map
    (fun r => (r.drop x1.toNat).take (x2 - x1).toNat)

/-- The part of `crop_capture` after the 404/409 guards and a successful
path resolution (`payload.roi` already a list of 4 [x, y] pairs of finite
floats): clip the roi to the image bounds, round the bounding box, require
both sides ≥ 16, crop, reject an empty crop, and return the new file
content, the response width/height and the appended log line. -/
def cropCaptureBody (P : Type) (path : List String) (roi : List (ℚ × ℚ))
    (image : List (List P)) (w : ℕ) :
    Except String (List (List P) × ℤ × ℤ × String) :=
  if roi.length ≠ 4 then Except.error "roi must be 4 points: [[x,y], ...]"
  else if bboxHi w (roi.map Prod.fst) - bboxLo w (roi.map Prod.fst) < 16 ∨
      bboxHi image.length (roi.map Prod.snd) -
        bboxLo image.length (roi.map Prod.snd) < 16 then
    Except.error "roi is too small for capture crop"
  else if ((cropRegion P image (bboxLo w (roi.map Prod.fst))
      (bboxLo image.length (roi.map Prod.snd)) (bboxHi w (roi.map Prod.fst))
      (bboxHi image.length (roi.map Prod.snd))).map List.length).sum = 0 then
    Except.error "capture crop produced empty image"
  else Except.ok
    (cropRegion P image (bboxLo w (roi.map Prod.fst))
        (bboxLo image.length (roi.map Prod.snd)) (bboxHi w (roi.map Prod.fst))
        (bboxHi image.length (roi.map Prod.snd)),
      bboxHi w (roi.map Prod.fst) - bboxLo w (roi.map Prod.fst),
      bboxHi image.length (roi.map Prod.snd) - bboxLo image.length (roi.map Prod.snd),
      "capture crop saved: " ++ (path.getLast?).getD "" ++ " (" ++
        toString (bboxHi w (roi.map Prod.fst) - bboxLo w (roi.map Prod.fst)) ++ "x" ++
        toString (bboxHi image.length (roi.map Prod.snd) -
          bboxLo image.length (roi.map Prod.snd)) ++ ")")

/-- `crop_capture`: resolve and validate the capture path (`must_exist` is
always true here), then run the cropping body on it. -/
def cropCapture (P : Type) (artifactRoot resolved : List String)
    (existsAndIsFile : Bool) (rawPath : String) (roi : List (ℚ × ℚ))
    (image : List (List P)) (w : ℕ) :
    Except String (List (List P) × ℤ × ℤ × String) :=
  match resolveCapturePathForJob artifactRoot resolved existsAndIsFile true rawPath with
  | Except.error e => Except.error e
  | Except.ok path => cropCaptureBody P path roi image w

lemma pyRound_eq_or (q : ℚ) : pyRound q = ⌊q⌋ ∨ pyRound q = ⌊q⌋ + 1 := by
  unfold pyRound
  split_ifs <;> simp

lemma pyRound_nonneg {q : ℚ} (h : 0 ≤ q) : 0 ≤ pyRound q := by
  have hf : 0 ≤ ⌊q⌋ := Int.floor_nonneg.mpr h
  rcases pyRound_eq_or q with he | he <;> omega

lemma pyRound_le {q : ℚ} {n : ℤ} (h : q ≤ (n : ℚ)) : pyRound q ≤ n := by
  have hfl : ⌊q⌋ ≤ n := le_trans (Int.floor_le_floor h) (le_of_eq (Int.floor_intCast n))
  unfold pyRound
  split_ifs with h1 h2 h3
  · exact hfl
  · have hq : (⌊q⌋ : ℚ) < q := by linarith
    have : (⌊q⌋ : ℚ) < (n : ℚ) := lt_of_lt_of_le hq h
    have : ⌊q⌋ < n := by exact_mod_cast this
    omega
  · exact hfl
  · have hq : (⌊q⌋ : ℚ) < q := by
      have : ¬(q - ⌊q⌋ < 1/2) := h1
      linarith
    have : (⌊q⌋ : ℚ) < (n : ℚ) := lt_of_lt_of_le hq h
    have : ⌊q⌋ < n := by exact_mod_cast this
    omega

lemma foldl_qmin_mem (l : List ℚ) : ∀ a : ℚ, l.foldl qmin a = a ∨ l.foldl qmin a ∈ l := by
  induction l with
  | nil => intro a; left; rfl
  | cons b rest ih =>
    intro a
    rw [List.foldl_cons]
    rcases ih (qmin a b) with h | h
    · rw [h]
      unfold qmin
      split_ifs
      · left; rfl
      · right; simp
    · right; simp [h]

lemma foldl_qmax_mem (l : List ℚ) : ∀ a : ℚ, l.foldl qmax a = a ∨ l.foldl qmax a ∈ l := by
  induction l with
  | nil => intro a; left; rfl
  | cons b rest ih =>
    intro a
    rw [List.foldl_cons]
    rcases ih (qmax a b) with h | h
    · rw [h]
      unfold qmax
      split_ifs
      · right; simp
      · left; rfl
    · right; simp [h]

lemma qlistMin_mem {l : List ℚ} (h : l ≠ []) : qlistMin l ∈ l := by
  cases l with
  | nil => exact absurd rfl h
  | cons a rest =>
    show rest.foldl qmin a ∈ a :: rest
    rcases foldl_qmin_mem rest a with he | he
    · rw [he]; simp
    · simp [he]

lemma qlistMax_mem {l : List ℚ} (h : l ≠ []) : qlistMax l ∈ l := by
  cases l with
  | nil => exact absurd rfl h
  | cons a rest =>
    show rest.foldl qmax a ∈ a :: rest
    rcases foldl_qmax_mem rest a with he | he
    · rw [he]; simp
    · simp [he]

lemma resolveCapture_ok (artifactRoot resolved : List String) (eif : Bool)
    (raw : String) (h1 : artifactRoot.isPrefixOf resolved = true)
    (h2 : eif = true)
    (h3 : lowerStr (pathSuffix ((resolved.getLast?).getD "")) ∈ imageSuffixes) :
    resolveCapturePathForJob artifactRoot resolved eif true raw =
      Except.ok resolved := by
  unfold resolveCapturePathForJob
  rw [if_pos h1, h2]
  rw [if_neg (by simp)]
  rw [if_pos h3]

lemma cropCapture_ok_eq (P : Type) (artifactRoot resolved : List String)
    (eif : Bool) (raw : String) (roi : List (ℚ × ℚ)) (image : List (List P))
    (w : ℕ) (h1 : artifactRoot.isPrefixOf resolved = true) (h2 : eif = true)
    (h3 : lowerStr (pathSuffix ((resolved.getLast?).getD "")) ∈ imageSuffixes) :
    cropCapture P artifactRoot resolved eif raw roi image w =
      cropCaptureBody P resolved roi image w := by
  unfold cropCapture
  rw [resolveCapture_ok artifactRoot resolved eif raw h1 h2 h3]

lemma clipCoords_mem_bounds {bound : ℕ} {vals : List ℚ} {x : ℚ}
    (hx : x ∈ clipCoords bound vals) : 0 ≤ x ∧ x ≤ (bound : ℚ) := by
  unfold clipCoords at hx
  rcases List.mem_map.mp hx with ⟨v, -, rfl⟩
  rw [qmax_eq, qmin_eq]
  constructor
  · exact le_max_left _ _
  · exact max_le (by positivity) (min_le_left _ _)

lemma bbox_bounds (bound : ℕ) (vals : List ℚ) (hne : vals ≠ []) :
    0 ≤ bboxLo bound vals ∧ bboxLo bound vals ≤ (bound : ℤ) ∧
      0 ≤ bboxHi bound vals ∧ bboxHi bound vals ≤ (bound : ℤ) := by
  have hne' : clipCoords bound vals ≠ [] := by
    unfold clipCoords
    simpa using hne
  have hlo := clipCoords_mem_bounds (qlistMin_mem hne')
  have hhi := clipCoords_mem_bounds (qlistMax_mem hne')
  refine ⟨pyRound_nonneg hlo.1, pyRound_le (by exact_mod_cast hlo.2),
    pyRound_nonneg hhi.1, pyRound_le (by exact_mod_cast hhi.2)⟩

lemma cropRegion_dims (P : Type) (image : List (List P)) (w : ℕ)
    (hrect : ∀ r ∈ image, r.length = w) (x1 y1 x2 y2 : ℤ)
    (hx1 : 0 ≤ x1) (hy1 : 0 ≤ y1) (hx2 : x2 ≤ (w : ℤ))
    (hy2 : y2 ≤ (image.length : ℤ)) (hxo : x1 ≤ x2) (hyo : y1 ≤ y2) :
    (cropRegion P image x1 y1 x2 y2).length = (y2 - y1).toNat ∧
      ∀ r ∈ cropRegion P image x1 y1 x2 y2, r.length = (x2 - x1).toNat := by
  constructor
  · simp only [cropRegion, List.length_map, List.length_take, List.length_drop]
    omega
  · intro r hr
    unfold cropRegion at hr
    rcases List.mem_map.mp hr with ⟨orig, horig, rfl⟩
    have horigimg : orig ∈ image :=
      List.mem_of_mem_drop (List.mem_of_mem_take horig)
    simp only [List.length_take, List.length_drop, hrect orig horigimg]
    omega

/-- C10: `crop_capture` errors when the capture path resolves outside the
job's artifact tree or lacks an image extension; otherwise, with the
bounding box of the roi clipped to the image bounds and rounded, it errors
when either side is below 16 px, and with both sides at least 16 px it
overwrites the file with the crop — whose row count and row widths equal
the bounding-box height and width — and reports those dimensions in the
response and in the `capture crop saved` log line. -/
theorem crop_capture_spec (P : Type) (artifactRoot resolved : List String)
    (eif : Bool) (raw : String) (roi : List (ℚ × ℚ)) (image : List (List P))
    (w : ℕ) (hrect : ∀ r ∈ image, r.length = w) (hlen : roi.length = 4) :
    (artifactRoot.isPrefixOf resolved = false →
      cropCapture P artifactRoot resolved eif raw roi image w =
        Except.error ("capture path must be inside this job directory: " ++ raw)) ∧
    (artifactRoot.isPrefixOf resolved = true → eif = true →
      lowerStr (pathSuffix ((resolved.getLast?).getD "")) ∉ imageSuffixes →
      cropCapture P artifactRoot resolved eif raw roi image w =
        Except.error ("unsupported capture format: " ++ raw)) ∧
    (artifactRoot.isPrefixOf resolved = true → eif = true →
      lowerStr (pathSuffix ((resolved.getLast?).getD "")) ∈ imageSuffixes →
      ((bboxHi w (roi.map Prod.fst) - bboxLo w (roi.map Prod.fst) < 16 ∨
        bboxHi image.length (roi.map Prod.snd) -
          bboxLo image.length (roi.map Prod.snd) < 16 →
        cropCapture P artifactRoot resolved eif raw roi image w =
          Except.error "roi is too small for capture crop") ∧
       (16 ≤ bboxHi w (roi.map Prod.fst) - bboxLo w (roi.map Prod.fst) →
        16 ≤ bboxHi image.length (roi.map Prod.snd) -
          bboxLo image.length (roi.map Prod.snd) →
        cropCapture P artifactRoot resolved eif raw roi image w =
          Except.ok
            (cropRegion P image (bboxLo w (roi.map Prod.fst))
                (bboxLo image.length (roi.map Prod.snd))
                (bboxHi w (roi.map Prod.fst))
                (bboxHi image.length (roi.map Prod.snd)),
              bboxHi w (roi.map Prod.fst) - bboxLo w (roi.map Prod.fst),
              bboxHi image.length (roi.map Prod.snd) -
                bboxLo image.length (roi.map Prod.snd),
              "capture crop saved: " ++ (resolved.getLast?).getD "" ++ " (" ++
                toString (bboxHi w (roi.map Prod.fst) -
                  bboxLo w (roi.map Prod.fst)) ++ "x" ++
                toString (bboxHi image.length (roi.map Prod.snd) -
                  bboxLo image.length (roi.map Prod.snd)) ++ ")") ∧
        (cropRegion P image (bboxLo w (roi.map Prod.fst))
            (bboxLo image.length (roi.map Prod.snd))
            (bboxHi w (roi.map Prod.fst))
            (bboxHi image.length (roi.map Prod.snd))).length =
          (bboxHi image.length (roi.map Prod.snd) -
            bboxLo image.length (roi.map Prod.snd)).toNat ∧
        ∀ r ∈ cropRegion P image (bboxLo w (roi.map Prod.fst))
            (bboxLo image.length (roi.map Prod.snd))
            (bboxHi w (roi.map Prod.fst))
            (bboxHi image.length (roi.map Prod.snd)),
          r.length =
            (bboxHi w (roi.map Prod.fst) - bboxLo w (roi.map Prod.fst)).toNat))) := by
  refine ⟨?_, ?_, ?_⟩
  · intro h
    simp [cropCapture, resolveCapturePathForJob, h]
  · intro h1 h2 h3
    simp [cropCapture, resolveCapturePathForJob, h1, h2, h3]
  · intro h1 h2 h3
    rw [cropCapture_ok_eq P artifactRoot resolved eif raw roi image w h1 h2 h3]
    have hxne : roi.map Prod.fst ≠ [] := by
      intro hc
      rw [← List.length_eq_zero, List.length_map, hlen] at hc
      exact absurd hc (by omega)
    have hyne : roi.map Prod.snd ≠ [] := by
      intro hc
      rw [← List.length_eq_zero, List.length_map, hlen] at hc
      exact absurd hc (by omega)
    obtain ⟨hxlo0, _, _, hxhiw⟩ := bbox_bounds w (roi.map Prod.fst) hxne
    obtain ⟨hylo0, _, _, hyhih⟩ := bbox_bounds image.length (roi.map Prod.snd) hyne
    constructor
    · intro hsmall
      unfold cropCaptureBody
      rw [if_neg (by rw [hlen]; omega), if_pos hsmall]
    · intro hwx hwy
      have hdims := cropRegion_dims P image w hrect
        (bboxLo w (roi.map Prod.fst)) (bboxLo image.length (roi.map Prod.snd))
        (bboxHi w (roi.map Prod.fst)) (bboxHi image.length (roi.map Prod.snd))
        hxlo0 hylo0 hxhiw hyhih (by omega) (by omega)
      have hsum : ¬(((cropRegion P image (bboxLo w (roi.map Prod.fst))
          (bboxLo image.length (roi.map Prod.snd)) (bboxHi w (roi.map Prod.fst))
          (bboxHi image.length (roi.map Prod.snd))).map List.length).sum = 0) := by
        intro hc
        have hpos : 0 < (cropRegion P image (bboxLo w (roi.map Prod.fst))
            (bboxLo image.length (roi.map Prod.snd)) (bboxHi w (roi.map Prod.fst))
            (bboxHi image.length (roi.map Prod.snd))).length := by
          rw [hdims.1]; omega
        obtain ⟨r0, hr0⟩ := List.exists_mem_of_length_pos hpos
        have hz : r0.length = 0 :=
          List.sum_eq_zero_iff.mp hc _ (List.mem_map_of_mem List.length hr0)
        have := hdims.2 r0 hr0
        omega
      refine ⟨?_, hdims.1, hdims.2⟩
      unfold cropCaptureBody
      rw [if_neg (by rw [hlen]; omega), if_neg (by omega), if_neg hsum]

lemma crop_witness_eval :
    bboxLo 800 (([((50:ℚ), (60:ℚ)), (750, 60), (750, 1140),
        (50, 1140)]).map Prod.fst) = 50 ∧
    bboxHi 800 (([((50:ℚ), (60:ℚ)), (750, 60), (750, 1140),
        (50, 1140)]).map Prod.fst) = 750 ∧
    bboxLo 1200 (([((50:ℚ), (60:ℚ)), (750, 60), (750, 1140),
        (50, 1140)]).map Prod.snd) = 60 ∧
    bboxHi 1200 (([((50:ℚ), (60:ℚ)), (750, 60), (750, 1140),
        (50, 1140)]).map Prod.snd) = 1140 := by
  norm_num [bboxLo, bboxHi, clipCoords, qlistMin, qlistMax, qmin, qmax, pyRound]

/-- Witness for `crop_capture_spec`: an 800×1200 page `page_0001.png`
inside the job tree, cropped with roi [[50,60],[750,60],[750,1140],
[50,1140]]: the saved file is 700 wide and 1080 tall and the log line is
`capture crop saved: page_0001.png (700x1080)`. -/
theorem crop_capture_spec_witness :
    (16 ≤ (750 : ℤ) - 50 ∧ 16 ≤ (1140 : ℤ) - 60) ∧
    cropCapture Unit ["jobs", "j1"] ["jobs", "j1", "stitched", "page_0001.png"]
        true "page_0001.png"
        [((50:ℚ), (60:ℚ)), (750, 60), (750, 1140), (50, 1140)]
        (List.replicate 1200 (List.replicate 800 ())) 800 =
      Except.ok (List.replicate 1080 (List.replicate 700 ()), 700, 1080,
        "capture crop saved: page_0001.png (700x1080)") := by
  have h := ((crop_capture_spec Unit ["jobs", "j1"]
      ["jobs", "j1", "stitched", "page_0001.png"] true "page_0001.png"
      [((50:ℚ), (60:ℚ)), (750, 60), (750, 1140), (50, 1140)]
      (List.replicate 1200 (List.replicate 800 ())) 800
      (fun r hr => by rw [List.eq_of_mem_replicate hr, List.length_replicate])
      rfl).2.2 (by decide) rfl (by decide)).2
  rw [List.length_replicate] at h
  obtain ⟨heq, -, -⟩ := h
    (by rw [crop_witness_eval.1, crop_witness_eval.2.1]; omega)
    (by rw [crop_witness_eval.2.2.1, crop_witness_eval.2.2.2]; omega)
  refine ⟨⟨by omega, by omega⟩, ?_⟩
  rw [heq, crop_witness_eval.1, crop_witness_eval.2.1, crop_witness_eval.2.2.1,
    crop_witness_eval.2.2.2]
  norm_num [cropRegion, List.drop_replicate, List.take_replicate,
    List.map_replicate]
  exact ⟨⟨by decide, by decide⟩, by decide⟩

end DrumScore
